import Mathlib

/-!
Verification development for the connections-canvas repository: a shallow
embedding of its tile data model, grid-layout engine, viewport (pan/zoom)
transform, selection handling, manual-input parsing, suggestion matching
and share-link encoding, with theorems checking the specification's claims.

Numbers held in JavaScript variables are modelled as rationals (ℚ);
list/array operations are modelled over Lean lists.  Fields declared
optional in types.ts (`groupColor?: string`, `isLocked?: boolean`) are
modelled as `Option String` and `Bool` (JS `undefined` is falsy, so a
missing `isLocked` behaves as `false`).
-/

namespace ConnectionsCanvas

/-- Tile record, from `types.ts` (`WordItem`). -/
structure WordItem where
  id : String
  text : String
  x : ℚ
  y : ℚ
  groupColor : Option String := none
  isLocked : Bool := false
deriving DecidableEq

/-- Pan/zoom viewport state (`{ x: 0, y: 0, scale: 1 }` in the canvas variants). -/
structure Viewport where
  x : ℚ
  y : ℚ
  scale : ℚ
deriving DecidableEq

/-- Tile id generator: the source builds ids as `word-${i}-${Date.now()}`;
`now` stands for the `Date.now()` timestamp. -/
def mkId (i : Nat) (now : Nat) : String :=
  "word-" ++ toString i ++ "-" ++ toString now

/-- Row-major grid placement shared by every layout variant in the source:
`wordList.map((text, i) => ({ id, text, x: startX + (i % cols) * cellW,
y: startY + (i / cols | floor) * cellH }))`, written as index-carrying
recursion over the word list. -/
def layoutWords (startX startY cellW cellH : ℚ) (cols : Nat) (now : Nat) :
    Nat → List String → List WordItem
  | _, [] => []
  | i, text :: rest =>
    { id := mkId i now, text := text,
      x := startX + ((i % cols : Nat) : ℚ) * cellW,
      y := startY + ((i / cols : Nat) : ℚ) * cellH } ::
      layoutWords startX startY cellW cellH cols now (i + 1) rest

/-- `initializeBoard` from `src/App.tsx` (lines 33-56): 4 columns, card size
160×100 (gap folded into the card size), grid centred horizontally,
starting 100px from the top. -/
def initializeBoard (newWordList : List String) (screenWidth : ℚ) (now : Nat) :
    List WordItem :=
  let cols : Nat := 4
  let cardW : ℚ := 160
  let cardH : ℚ := 100
  let startX : ℚ := (screenWidth - (cols : ℚ) * cardW) / 2
  let startY : ℚ := 100
  layoutWords startX startY cardW cardH cols now 0 newWordList

/-- `calculateResponsiveLayout` from `src/unnamed/part_002` (lines 47-80):
tiles are laid out in world space at `(i % 4) * (150 + 16)`,
`(i / 4) * (80 + 16)`; the centring is carried by the returned viewport
whose scale is clamped to `[0.4, 1.2]`. -/
def calculateResponsiveLayout2 (wordList : List String) (screenW : ℚ) (now : Nat) :
    List WordItem × Viewport :=
  let cols : Nat := 4
  let gap : ℚ := 16
  let tileW : ℚ := 150
  let tileH : ℚ := 80
  let totalW : ℚ := (cols : ℚ) * tileW + ((cols : ℚ) - 1) * gap
  let hPadding : ℚ := 40
  let scale0 : ℚ := if screenW < totalW + hPadding then (screenW - hPadding) / totalW else 1
  let scale : ℚ := max 0.4 (min 1.2 scale0)
  let gridScreenW : ℚ := totalW * scale
  let startViewportX : ℚ := (screenW - gridScreenW) / 2
  let startViewportY : ℚ := if screenW < 640 then 160 else 200
  (layoutWords 0 0 (tileW + gap) (tileH + gap) cols now 0 wordList,
   { x := startViewportX, y := startViewportY, scale := scale })

/-- Elementwise description of `layoutWords`. -/
theorem layoutWords_get? (startX startY cellW cellH : ℚ) (cols now : Nat) :
    ∀ (l : List String) (i k : Nat),
      (layoutWords startX startY cellW cellH cols now i l).get? k =
        (l.get? k).map (fun text =>
          { id := mkId (i + k) now, text := text,
            x := startX + (((i + k) % cols : Nat) : ℚ) * cellW,
            y := startY + (((i + k) / cols : Nat) : ℚ) * cellH }) := by
  intro l
  induction l with
  | nil => intro i k; simp [layoutWords]
  | cons t rest ih =>
    intro i k
    cases k with
    | zero => simp [layoutWords]
    | succ k' =>
      simp only [layoutWords, List.get?]
      rw [ih (i + 1) k']
      have harith : i + 1 + k' = i + (k' + 1) := by omega
      rw [harith]

/-- `layoutWords` produces one tile per word. -/
theorem layoutWords_length (startX startY cellW cellH : ℚ) (cols now : Nat) :
    ∀ (l : List String) (i : Nat),
      (layoutWords startX startY cellW cellH cols now i l).length = l.length := by
  intro l
  induction l with
  | nil => intro i; simp [layoutWords]
  | cons t rest ih => intro i; simp [layoutWords, ih]

/-- The texts of a freshly laid-out board are exactly the input word list. -/
theorem layoutWords_texts (startX startY cellW cellH : ℚ) (cols now : Nat) :
    ∀ (l : List String) (i : Nat),
      (layoutWords startX startY cellW cellH cols now i l).map WordItem.text = l := by
  intro l
  induction l with
  | nil => intro i; simp [layoutWords]
  | cons t rest ih => intro i; simp [layoutWords, ih]

/-- C1: for every word list of length n (and any screen size and timestamp),
both layout engines produce exactly n tiles, one per word in order, with
tile i at column i mod 4 and row i div 4 of the grid (x = startX +
(i mod cols)·cellW, y = startY + (i div cols)·cellH, the gap being folded
into the cell size); distinct indices get distinct positions; the empty
word list yields the empty tile set; the computation is total, so it never
fails. -/
theorem layout_places_every_word (wl : List String) (sw : ℚ) (now : Nat) :
    (initializeBoard wl sw now).length = wl.length ∧
    (∀ (i : Nat) (t : String), wl.get? i = some t →
      (initializeBoard wl sw now).get? i = some
        { id := mkId i now, text := t,
          x := (sw - (4 : ℚ) * 160) / 2 + ((i % 4 : Nat) : ℚ) * 160,
          y := 100 + ((i / 4 : Nat) : ℚ) * 100 }) ∧
    (∀ (i j : Nat) (ti tj : WordItem),
      (initializeBoard wl sw now).get? i = some ti →
      (initializeBoard wl sw now).get? j = some tj →
      i ≠ j → ¬(ti.x = tj.x ∧ ti.y = tj.y)) ∧
    (wl = [] → initializeBoard wl sw now = []) ∧
    (calculateResponsiveLayout2 wl sw now).1.length = wl.length ∧
    (∀ (i : Nat) (t : String), wl.get? i = some t →
      (calculateResponsiveLayout2 wl sw now).1.get? i = some
        { id := mkId i now, text := t,
          x := ((i % 4 : Nat) : ℚ) * (150 + 16),
          y := ((i / 4 : Nat) : ℚ) * (80 + 16) }) ∧
    (wl = [] → (calculateResponsiveLayout2 wl sw now).1 = []) := by
  have hget : ∀ (i : Nat),
      (initializeBoard wl sw now).get? i = (wl.get? i).map (fun t =>
        { id := mkId i now, text := t,
          x := (sw - (4 : ℚ) * 160) / 2 + ((i % 4 : Nat) : ℚ) * 160,
          y := 100 + ((i / 4 : Nat) : ℚ) * 100 }) := by
    intro i
    show (layoutWords _ _ _ _ _ _ 0 wl).get? i = _
    rw [layoutWords_get?]
    simp [Nat.zero_add]
  have hget2 : ∀ (i : Nat),
      (calculateResponsiveLayout2 wl sw now).1.get? i = (wl.get? i).map (fun t =>
        { id := mkId i now, text := t,
          x := ((i % 4 : Nat) : ℚ) * (150 + 16),
          y := ((i / 4 : Nat) : ℚ) * (80 + 16) }) := by
    intro i
    show (layoutWords _ _ _ _ _ _ 0 wl).get? i = _
    rw [layoutWords_get?]
    simp [Nat.zero_add]
  refine ⟨?_, ?_, ?_, ?_, ?_, ?_, ?_⟩
  · exact layoutWords_length _ _ _ _ _ _ wl 0
  · intro i t ht; rw [hget i, ht]; rfl
  · intro i j ti tj hi hj hij hxy
    rw [hget i] at hi
    rw [hget j] at hj
    obtain ⟨ti', hti', hti⟩ := Option.map_eq_some'.mp hi
    obtain ⟨tj', htj', htj⟩ := Option.map_eq_some'.mp hj
    subst hti htj
    simp only at hxy
    obtain ⟨hx, hy⟩ := hxy
    have hx' : i % 4 = j % 4 := by
      have h := hx
      field_simp at h
      exact_mod_cast h
    have hy' : i / 4 = j / 4 := by
      have h := add_left_cancel hy
      have h' := mul_right_cancel₀ (by norm_num : (100 : ℚ) ≠ 0) h
      exact_mod_cast h'
    exact hij (by omega)
  · intro h; subst h; rfl
  · exact layoutWords_length _ _ _ _ _ _ wl 0
  · intro i t ht; rw [hget2 i, ht]; rfl
  · intro h; subst h; rfl

/-- Concrete check of the layout claim: a 5-word board at screen width 800,
timestamp 7: the fifth tile (index 4) sits at column 0, row 1. -/
theorem layout_places_every_word_witness :
    (["A", "B", "C", "D", "E"] : List String).get? 4 = some "E" ∧
    (initializeBoard ["A", "B", "C", "D", "E"] 800 7).get? 4 = some
      { id := mkId 4 7, text := "E",
        x := ((800 : ℚ) - (4 : ℚ) * 160) / 2 + ((4 % 4 : Nat) : ℚ) * 160,
        y := 100 + ((4 / 4 : Nat) : ℚ) * 100 } :=
  ⟨rfl, (layout_places_every_word ["A", "B", "C", "D", "E"] 800 7).2.1 4 "E" rfl⟩

/-! ## Drag handling -/

/-- `handleDragEnd` from `src/unnamed/part_001` (lines 346-357) and
`src/unnamed/part_002` (lines 173-183): a completed drag with screen delta
`(dx, dy)` is ignored when both components are zero
(`Math.abs(delta.x) === 0 && Math.abs(delta.y) === 0`); otherwise the tile
whose id is the event's active id moves by the delta divided by the
viewport scale. -/
def handleDragEnd (activeId : String) (dx dy : ℚ) (scale : ℚ)
    (words : List WordItem) : List WordItem :=
  if dx = 0 ∧ dy = 0 then words
  else
    words.map (fun w =>
      if w.id = activeId then { w with x := w.x + dx / scale, y := w.y + dy / scale }
      else w)

/-- `handleDragEnd` from `src/App.tsx` (lines 75-85): same update without
the scale compensation (that variant has no viewport) and without the
zero-delta early return. -/
def handleDragEndApp (activeId : String) (dx dy : ℚ)
    (words : List WordItem) : List WordItem :=
  words.map (fun w =>
    if w.id = activeId then { w with x := w.x + dx, y := w.y + dy }
    else w)

/-- C2: a completed tile drag with nonzero screen delta (dx, dy) at
viewport scale s updates the dragged tile's world position by exactly
(dx / s, dy / s); its other components, every other tile, and the length
of the tile list are unchanged. -/
theorem drag_scales_delta (activeId : String) (dx dy s : ℚ)
    (words : List WordItem) (hnz : ¬(dx = 0 ∧ dy = 0)) :
    (handleDragEnd activeId dx dy s words).length = words.length ∧
    (∀ (i : Nat) (w : WordItem), words.get? i = some w →
      (handleDragEnd activeId dx dy s words).get? i =
        some (if w.id = activeId then
                { w with x := w.x + dx / s, y := w.y + dy / s }
              else w)) := by
  unfold handleDragEnd
  rw [if_neg hnz]
  refine ⟨List.length_map _ _, ?_⟩
  intro i w hw
  rw [List.get?_map, hw]
  rfl

/-- Concrete check of the drag claim: at scale 2, a screen delta of
(40, 0) moves the dragged tile from world x = 5 to world x = 25 — by
(20, 0) in world space. -/
theorem drag_scales_delta_witness :
    ¬((40 : ℚ) = 0 ∧ (0 : ℚ) = 0) ∧
    (handleDragEnd "t1" 40 0 2
        [{ id := "t1", text := "CAT", x := 5, y := 9 }]).get? 0 =
      some (if ("t1" : String) = "t1" then
              { id := "t1", text := "CAT", x := 5 + (40 : ℚ) / 2, y := 9 + (0 : ℚ) / 2 }
            else { id := "t1", text := "CAT", x := 5, y := 9 }) :=
  ⟨by norm_num,
   (drag_scales_delta "t1" 40 0 2 [{ id := "t1", text := "CAT", x := 5, y := 9 }]
      (by norm_num)).2 0 _ rfl⟩

/-- C10: every drag-end event (App.tsx variant) preserves the length and
order of the tile list; a tile whose id differs from the active id is
entirely unchanged; the matching tile changes at most x and y, keeping id,
text, groupColor and isLocked; a drag-end with zero delta changes nothing
in either variant. -/
theorem drag_frame_conditions (activeId : String) (dx dy : ℚ)
    (words : List WordItem) :
    (handleDragEndApp activeId dx dy words).length = words.length ∧
    (∀ (i : Nat) (w : WordItem), words.get? i = some w → w.id ≠ activeId →
      (handleDragEndApp activeId dx dy words).get? i = some w) ∧
    (∀ (i : Nat) (w w' : WordItem), words.get? i = some w →
      (handleDragEndApp activeId dx dy words).get? i = some w' →
      w'.id = w.id ∧ w'.text = w.text ∧ w'.groupColor = w.groupColor ∧
        w'.isLocked = w.isLocked ∧
        (w.id = activeId → w'.x = w.x + dx ∧ w'.y = w.y + dy)) ∧
    handleDragEndApp activeId 0 0 words = words ∧
    (∀ (s : ℚ), handleDragEnd activeId 0 0 s words = words) := by
  refine ⟨List.length_map _ _, ?_, ?_, ?_, ?_⟩
  · intro i w hw hne
    unfold handleDragEndApp
    rw [List.get?_map, hw]
    simp [hne]
  · intro i w w' hw hw'
    unfold handleDragEndApp at hw'
    rw [List.get?_map, hw] at hw'
    simp only [Option.map_some', Option.some_inj] at hw'
    by_cases hid : w.id = activeId
    · rw [if_pos hid] at hw'
      subst hw'
      exact ⟨rfl, rfl, rfl, rfl, fun _ => ⟨rfl, rfl⟩⟩
    · rw [if_neg hid] at hw'
      subst hw'
      exact ⟨rfl, rfl, rfl, rfl, fun h => absurd h hid⟩
  · unfold handleDragEndApp
    have : ∀ w : WordItem,
        (if w.id = activeId then { w with x := w.x + 0, y := w.y + 0 } else w) = w := by
      intro w
      split
      · cases w; simp
      · rfl
    simp only [this, List.map_id']
  · intro s
    unfold handleDragEnd
    rw [if_pos ⟨rfl, rfl⟩]

/-- Concrete check of the drag frame conditions: a drag of the tile "t2"
leaves the tile "t1" untouched. -/
theorem drag_frame_conditions_witness :
    ([{ id := "t1", text := "CAT", x := 5, y := 9 }] : List WordItem).get? 0 =
        some { id := "t1", text := "CAT", x := 5, y := 9 } ∧
    (handleDragEndApp "t2" 40 0
        [{ id := "t1", text := "CAT", x := 5, y := 9 }]).get? 0 =
      some { id := "t1", text := "CAT", x := 5, y := 9 } :=
  ⟨rfl,
   (drag_frame_conditions "t2" 40 0
      [{ id := "t1", text := "CAT", x := 5, y := 9 }]).2.1 0 _ rfl (by decide)⟩

/-! ## Zoom handling -/

/-- The zoom operations of the canvas variants (`src/unnamed/part_001`
lines 319-343 and 407-413, `src/unnamed/part_002` lines 146-171 and
239-245), applied to the current scale:
pinch moves add `deltaDist * 0.005` and clamp to `[0.1, 3]`;
modifier-key wheel events add `-deltaY * 0.001` and clamp to `[0.1, 3]`;
the zoom-in button adds `0.1` clamped above by 3;
the zoom-out button subtracts `0.1` clamped below by 0.1. -/
inductive ZoomOp where
  | pinch (deltaDist : ℚ)
  | wheel (deltaY : ℚ)
  | zoomInBtn
  | zoomOutBtn
deriving DecidableEq

def applyZoom (s : ℚ) : ZoomOp → ℚ
  | .pinch d => max 0.1 (min 3 (s + d * 0.005))
  | .wheel dy => max 0.1 (min 3 (s + -dy * 0.001))
  | .zoomInBtn => min 3 (s + 0.1)
  | .zoomOutBtn => max 0.1 (s - 0.1)

def applyZooms (s : ℚ) (ops : List ZoomOp) : ℚ :=
  ops.foldl applyZoom s

/-- A single zoom operation keeps the scale in [0.1, 3]. -/
theorem applyZoom_bounds (s : ℚ) (op : ZoomOp)
    (hlo : 0.1 ≤ s) (hhi : s ≤ 3) :
    0.1 ≤ applyZoom s op ∧ applyZoom s op ≤ 3 := by
  cases op with
  | pinch d =>
    constructor
    · exact le_max_left _ _
    · exact max_le (by norm_num) (min_le_left _ _)
  | wheel dy =>
    constructor
    · exact le_max_left _ _
    · exact max_le (by norm_num) (min_le_left _ _)
  | zoomInBtn =>
    constructor
    · exact le_min (by norm_num) (by linarith)
    · exact min_le_left _ _
  | zoomOutBtn =>
    constructor
    · exact le_max_left _ _
    · exact max_le (by norm_num) (by linarith)

/-- C3: after any sequence of zoom operations (pinch moves, modifier-key
wheel events, zoom buttons) starting from a scale in [0.1, 3], the
viewport scale stays in [0.1, 3] regardless of the requested step sizes;
out-of-range requests are clamped. -/
theorem zoom_scale_bounded (ops : List ZoomOp) (s : ℚ)
    (hlo : 0.1 ≤ s) (hhi : s ≤ 3) :
    0.1 ≤ applyZooms s ops ∧ applyZooms s ops ≤ 3 := by
  induction ops generalizing s with
  | nil => exact ⟨hlo, hhi⟩
  | cons op rest ih =>
    have h := applyZoom_bounds s op hlo hhi
    exact ih (applyZoom s op) h.1 h.2

/-- Concrete check of the zoom bound: a huge pinch followed by a huge
wheel step and a zoom-out, starting at scale 1, lands back inside the
bounds. -/
theorem zoom_scale_bounded_witness :
    (0.1 : ℚ) ≤ 1 ∧ (1 : ℚ) ≤ 3 ∧
    (0.1 ≤ applyZooms 1 [.pinch 100000, .wheel 100000, .zoomOutBtn] ∧
      applyZooms 1 [.pinch 100000, .wheel 100000, .zoomOutBtn] ≤ 3) :=
  ⟨by norm_num, by norm_num,
   zoom_scale_bounded [.pinch 100000, .wheel 100000, .zoomOutBtn] 1
     (by norm_num) (by norm_num)⟩

/-! ## Selection handling -/

/-- `handleToggleSelect`, identical in `src/App.tsx` (lines 87-99) and
`src/unnamed/part_001` (lines 101-108): delete the id when present;
otherwise insert it only while the set holds fewer than 4 ids. -/
def handleToggleSelect (selected : Finset String) (id : String) :
    Finset String :=
  if id ∈ selected then selected.erase id
  else if selected.card < 4 then insert id selected
  else selected

/-- C4: toggling a selected id removes it regardless of set size; toggling
an unselected id on a full (4-member) set is a no-op; otherwise the id is
added; consequently the selection never exceeds 4 members. -/
theorem toggle_select_cap (selected : Finset String) (id : String) :
    (id ∈ selected → handleToggleSelect selected id = selected.erase id) ∧
    (id ∉ selected → selected.card < 4 →
      handleToggleSelect selected id = insert id selected) ∧
    (id ∉ selected → 4 ≤ selected.card →
      handleToggleSelect selected id = selected) ∧
    (selected.card ≤ 4 → (handleToggleSelect selected id).card ≤ 4) := by
  refine ⟨?_, ?_, ?_, ?_⟩
  · intro h; simp [handleToggleSelect, h]
  · intro h hc; simp [handleToggleSelect, h, hc]
  · intro h hc; simp [handleToggleSelect, h, Nat.not_lt.mpr hc]
  · intro hc
    unfold handleToggleSelect
    split
    · exact le_trans (Finset.card_le_card (Finset.erase_subset _ _)) hc
    · split
      · calc (insert id selected).card ≤ selected.card + 1 :=
              Finset.card_insert_le _ _
          _ ≤ 4 := by omega
      · exact hc

/-- Concrete check of the selection cap: toggling a fifth id onto a full
4-member selection changes nothing. -/
theorem toggle_select_cap_witness :
    ("e" : String) ∉ ({"a", "b", "c", "d"} : Finset String) ∧
    4 ≤ ({"a", "b", "c", "d"} : Finset String).card ∧
    handleToggleSelect {"a", "b", "c", "d"} "e" = {"a", "b", "c", "d"} :=
  ⟨by decide, by decide,
   (toggle_select_cap {"a", "b", "c", "d"} "e").2.2.1 (by decide) (by decide)⟩

/-! ## Grouping suggestions -/

/-- Difficulty labels from `types.ts` (`GroupSuggestion.difficulty`). -/
inductive Difficulty where
  | easy | medium | hard | tricky
deriving DecidableEq

/-- AI grouping suggestion record, from `types.ts`. -/
structure GroupSuggestion where
  groupName : String
  words : List String
  reasoning : String
  difficulty : Difficulty
deriving DecidableEq

/-- The four NYT-style group colors from `src/App.tsx` (lines 11-16). -/
def GROUP_COLORS : List String :=
  ["bg-yellow-500 border-yellow-600",
   "bg-green-500 border-green-600",
   "bg-blue-500 border-blue-600",
   "bg-purple-500 border-purple-600"]

/-- `GROUP_COLORS[index % GROUP_COLORS.length]` from `applySuggestion`. -/
def suggestionColor (index : Nat) : String :=
  GROUP_COLORS.getD (index % GROUP_COLORS.length) ""

/-- `applySuggestion` from `src/App.tsx` (lines 156-179), restricted to its
effect on the tile list: when the suggested words match exactly 4 tiles,
those tiles get the group color and are locked; otherwise the function
returns early (after a console warning) and the tiles are untouched. -/
def applySuggestion (suggestion : GroupSuggestion) (index : Nat)
    (words : List WordItem) : List WordItem :=
  let wordsToGroup := words.filter (fun w => suggestion.words.contains w.text)
  if wordsToGroup.length ≠ 4 then words
  else
    let color := suggestionColor index
    words.map (fun w =>
      if suggestion.words.contains w.text then
        { w with groupColor := some color, isLocked := true }
      else w)

/-- C8: when the suggested words match exactly 4 tiles, applying the
suggestion locks exactly those tiles and gives all of them the same group
color, leaving every non-matching tile unchanged; when the match count is
not 4, zero tiles change. -/
theorem suggestion_locks_exactly_matches (sugg : GroupSuggestion)
    (index : Nat) (words : List WordItem) :
    ((words.filter (fun w => sugg.words.contains w.text)).length ≠ 4 →
      applySuggestion sugg index words = words) ∧
    ((words.filter (fun w => sugg.words.contains w.text)).length = 4 →
      (applySuggestion sugg index words).length = words.length ∧
      (∀ (i : Nat) (w : WordItem), words.get? i = some w →
        sugg.words.contains w.text = true →
        (applySuggestion sugg index words).get? i =
          some { w with groupColor := some (suggestionColor index),
                        isLocked := true }) ∧
      (∀ (i : Nat) (w : WordItem), words.get? i = some w →
        sugg.words.contains w.text = false →
        (applySuggestion sugg index words).get? i = some w) ∧
      ((applySuggestion sugg index words).filter
          (fun w => sugg.words.contains w.text)).length = 4) := by
  constructor
  · intro hne
    unfold applySuggestion
    rw [if_pos hne]
  · intro h4
    have happ : applySuggestion sugg index words =
        words.map (fun w =>
          if sugg.words.contains w.text then
            { w with groupColor := some (suggestionColor index), isLocked := true }
          else w) := by
      unfold applySuggestion
      rw [if_neg (fun hne => hne h4)]
    refine ⟨by rw [happ]; exact List.length_map _ _, ?_, ?_, ?_⟩
    · intro i w hw hc
      rw [happ, List.get?_map, hw]
      simp only [Option.map_some', hc, if_pos]
    · intro i w hw hc
      rw [happ, List.get?_map, hw]
      simp only [Option.map_some', hc, Bool.false_eq_true, if_neg,
        not_false_eq_true]
    · rw [happ, List.filter_map]
      have hcomp : ((fun w : WordItem => sugg.words.contains w.text) ∘
          (fun w : WordItem =>
            if sugg.words.contains w.text then
              { w with groupColor := some (suggestionColor index), isLocked := true }
            else w)) = fun w : WordItem => sugg.words.contains w.text := by
        funext w
        simp only [Function.comp_apply]
        by_cases hc : sugg.words.contains w.text
        · rw [if_pos hc]
        · rw [if_neg hc]
      rw [hcomp, List.length_map]
      exact h4

/-- Concrete check of the suggestion claim: on a 5-tile board containing
the 4 suggested words, the matching tile "B" is locked with the group
color and the non-matching tile "E" is untouched. -/
theorem suggestion_locks_exactly_matches_witness :
    (([⟨"w0", "A", 0, 0, none, false⟩, ⟨"w1", "B", 1, 0, none, false⟩,
       ⟨"w2", "C", 2, 0, none, false⟩, ⟨"w3", "D", 3, 0, none, false⟩,
       ⟨"w4", "E", 4, 0, none, false⟩] : List WordItem).filter
        (fun w => (GroupSuggestion.mk "g" ["A", "B", "C", "D"] "r"
          .easy).words.contains w.text)).length = 4 ∧
    (applySuggestion (GroupSuggestion.mk "g" ["A", "B", "C", "D"] "r" .easy) 0
        [⟨"w0", "A", 0, 0, none, false⟩, ⟨"w1", "B", 1, 0, none, false⟩,
         ⟨"w2", "C", 2, 0, none, false⟩, ⟨"w3", "D", 3, 0, none, false⟩,
         ⟨"w4", "E", 4, 0, none, false⟩]).get? 1 =
      some { id := "w1", text := "B", x := 1, y := 0,
             groupColor := some (suggestionColor 0), isLocked := true } ∧
    (applySuggestion (GroupSuggestion.mk "g" ["A", "B", "C", "D"] "r" .easy) 0
        [⟨"w0", "A", 0, 0, none, false⟩, ⟨"w1", "B", 1, 0, none, false⟩,
         ⟨"w2", "C", 2, 0, none, false⟩, ⟨"w3", "D", 3, 0, none, false⟩,
         ⟨"w4", "E", 4, 0, none, false⟩]).get? 4 =
      some ⟨"w4", "E", 4, 0, none, false⟩ :=
  ⟨by decide,
   ((suggestion_locks_exactly_matches
      (GroupSuggestion.mk "g" ["A", "B", "C", "D"] "r" .easy) 0
      [⟨"w0", "A", 0, 0, none, false⟩, ⟨"w1", "B", 1, 0, none, false⟩,
       ⟨"w2", "C", 2, 0, none, false⟩, ⟨"w3", "D", 3, 0, none, false⟩,
       ⟨"w4", "E", 4, 0, none, false⟩]).2 (by decide)).2.1 1 _ rfl (by decide),
   ((suggestion_locks_exactly_matches
      (GroupSuggestion.mk "g" ["A", "B", "C", "D"] "r" .easy) 0
      [⟨"w0", "A", 0, 0, none, false⟩, ⟨"w1", "B", 1, 0, none, false⟩,
       ⟨"w2", "C", 2, 0, none, false⟩, ⟨"w3", "D", 3, 0, none, false⟩,
       ⟨"w4", "E", 4, 0, none, false⟩]).2 (by decide)).2.2.1 4 _ rfl (by decide)⟩

/-! ## Reset layout -/

/-- The re-gridding loop of `handleResetPositions` in `src/App.tsx`
(lines 117-141): unlocked word i goes to
`(startX + (i % 4) * 160, 150 + (i / 4) * 100 + extra)` where `extra` is
150 when some tiles are locked. -/
def regridAux (startX extra : ℚ) : Nat → List WordItem → List WordItem
  | _, [] => []
  | i, w :: rest =>
    { w with x := startX + ((i % 4 : Nat) : ℚ) * 160,
             y := 150 + ((i / 4 : Nat) : ℚ) * 100 + extra } ::
      regridAux startX extra (i + 1) rest

/-- `handleResetPositions` from `src/App.tsx` (lines 117-141): locked tiles
keep their positions and are moved to the front of the list; unlocked
tiles are re-gridded. -/
def handleResetPositions (words : List WordItem) (screenWidth : ℚ) :
    List WordItem :=
  let startX : ℚ := (screenWidth - (4 : ℚ) * 160) / 2
  let unlocked := words.filter (fun w => !w.isLocked)
  let locked := words.filter (fun w => w.isLocked)
  let extra : ℚ := if 0 < locked.length then 150 else 0
  locked ++ regridAux startX extra 0 unlocked

/-- `handleResetLayout` from `src/unnamed/part_002` (lines 202-207):
re-runs the responsive layout on the current word texts and resets the
viewport. -/
def handleResetLayout2 (words : List WordItem) (screenW : ℚ) (now : Nat) :
    List WordItem × Viewport :=
  calculateResponsiveLayout2 (words.map WordItem.text) screenW now

theorem regridAux_filter_of_unlocked (startX extra : ℚ) :
    ∀ (l : List WordItem) (i : Nat), (∀ w ∈ l, w.isLocked = false) →
      (regridAux startX extra i l).filter (fun w => w.isLocked) = [] ∧
      (regridAux startX extra i l).filter (fun w => !w.isLocked) =
        regridAux startX extra i l := by
  intro l
  induction l with
  | nil => intro i h; exact ⟨rfl, rfl⟩
  | cons w rest ih =>
    intro i h
    have hw : w.isLocked = false := h w (List.mem_cons_self _ _)
    have hrest := ih (i + 1) (fun w' hw' => h w' (List.mem_cons_of_mem _ hw'))
    constructor
    · simp only [regridAux, List.filter_cons]
      rw [if_neg (by simp [hw])]
      exact hrest.1
    · simp only [regridAux, List.filter_cons]
      rw [if_pos (by simp [hw])]
      rw [hrest.2]

theorem regridAux_regridAux (startX extra : ℚ) :
    ∀ (l : List WordItem) (i : Nat),
      regridAux startX extra i (regridAux startX extra i l) =
        regridAux startX extra i l := by
  intro l
  induction l with
  | nil => intro i; rfl
  | cons w rest ih =>
    intro i
    simp only [regridAux]
    rw [ih (i + 1)]

/-- The text/x/y "positions" of a fresh layout do not depend on the id
timestamp. -/
theorem layoutWords_positions_timestamp (startX startY cellW cellH : ℚ)
    (cols : Nat) (t t' : Nat) :
    ∀ (l : List String) (i : Nat),
      (layoutWords startX startY cellW cellH cols t i l).map
          (fun w => (w.text, w.x, w.y)) =
        (layoutWords startX startY cellW cellH cols t' i l).map
          (fun w => (w.text, w.x, w.y)) := by
  intro l
  induction l with
  | nil => intro i; rfl
  | cons s rest ih =>
    intro i
    simp only [layoutWords, List.map_cons]
    rw [ih (i + 1)]

/-- C6: resetting the layout twice in a row yields the same tile positions
as resetting once.  In the App.tsx variant (`handleResetPositions`) the
whole tile list is literally idempotent; in the part_002 variant
(`handleResetLayout`) the text/x/y data and the viewport agree even though
fresh ids are minted from the timestamp. -/
theorem reset_layout_idempotent (words : List WordItem) (sw : ℚ)
    (t1 t2 : Nat) :
    handleResetPositions (handleResetPositions words sw) sw =
      handleResetPositions words sw ∧
    (handleResetLayout2 (handleResetLayout2 words sw t1).1 sw t2).1.map
        (fun w => (w.text, w.x, w.y)) =
      (handleResetLayout2 words sw t1).1.map (fun w => (w.text, w.x, w.y)) ∧
    (handleResetLayout2 (handleResetLayout2 words sw t1).1 sw t2).2 =
      (handleResetLayout2 words sw t1).2 := by
  refine ⟨?_, ?_, ?_⟩
  · show handleResetPositions
      ((words.filter (fun w => w.isLocked)) ++
        regridAux ((sw - (4 : ℚ) * 160) / 2)
          (if 0 < (words.filter (fun w => w.isLocked)).length then 150 else 0) 0
          (words.filter (fun w => !w.isLocked))) sw = _
    unfold handleResetPositions
    have hU : ∀ w ∈ words.filter (fun w => !w.isLocked), w.isLocked = false := by
      intro w hw
      have := List.of_mem_filter hw
      simpa using this
    have hL : ∀ w ∈ words.filter (fun w => w.isLocked), w.isLocked = true := by
      intro w hw
      simpa using List.of_mem_filter hw
    have hfL1 : (words.filter (fun w => w.isLocked)).filter
        (fun w => w.isLocked) = words.filter (fun w => w.isLocked) :=
      List.filter_eq_self.mpr hL
    have hfL2 : (words.filter (fun w => w.isLocked)).filter
        (fun w => !w.isLocked) = [] := by
      rw [List.filter_eq_nil]
      intro w hw
      simp [hL w hw]
    have hR := regridAux_filter_of_unlocked ((sw - (4 : ℚ) * 160) / 2)
      (if 0 < (words.filter (fun w => w.isLocked)).length then 150 else 0)
      (words.filter (fun w => !w.isLocked)) 0 hU
    rw [List.filter_append, List.filter_append, hfL1, hfL2, hR.1, hR.2,
      List.append_nil, List.nil_append]
    dsimp only
    rw [regridAux_regridAux]
  · show (layoutWords 0 0 (150 + 16) (80 + 16) 4 t2 0
        (((handleResetLayout2 words sw t1).1).map WordItem.text)).map
          (fun w => (w.text, w.x, w.y)) = _
    have htext : ((handleResetLayout2 words sw t1).1).map WordItem.text =
        words.map WordItem.text := by
      show (layoutWords 0 0 (150 + 16) (80 + 16) 4 t1 0
        (words.map WordItem.text)).map WordItem.text = _
      exact layoutWords_texts _ _ _ _ _ _ _ 0
    rw [htext]
    exact layoutWords_positions_timestamp _ _ _ _ _ t2 t1 _ 0
  · rfl

/-! ## Selection/board consistency (state machines) -/

/-- `calculateResponsiveLayout` from `src/unnamed/part_001` (lines 26-57):
2 columns on mobile (< 640px) and 4 on desktop, tile width capped at 150px
(`Math.min(150, Math.floor(availableWidth / cols))`), grid centred. -/
def calculateResponsiveLayout1 (wordList : List String) (width : ℚ)
    (now : Nat) : List WordItem :=
  let isMobile : Bool := width < 640
  let cols : Nat := if isMobile then 2 else 4
  let gap : ℚ := if isMobile then 8 else 12
  let padding : ℚ := 20
  let availableWidth : ℚ := width - padding * 2 - gap * ((cols : ℚ) - 1)
  let tileW : ℚ := min 150 ((⌊availableWidth / (cols : ℚ)⌋ : ℤ) : ℚ)
  let tileH : ℚ := if isMobile then max 60 (tileW * 0.5) else 80
  let totalGridWidth : ℚ := (cols : ℚ) * tileW + ((cols : ℚ) - 1) * gap
  let startX : ℚ := (width - totalGridWidth) / 2
  let startY : ℚ := if isMobile then 140 else 160
  layoutWords startX startY (tileW + gap) (tileH + gap) cols now 0 wordList

/-- `handleDragEnd` from `src/unnamed/part_001` (lines 92-99): the variant
without a viewport applies the raw delta after the zero-delta guard. -/
def handleDragEnd1 (activeId : String) (dx dy : ℚ)
    (words : List WordItem) : List WordItem :=
  if dx = 0 ∧ dy = 0 then words
  else
    words.map (fun w =>
      if w.id = activeId then { w with x := w.x + dx, y := w.y + dy } else w)

/-- UI state of `src/unnamed/part_001`: tile list plus selected ids. -/
structure CanvasState where
  words : List WordItem
  selected : Finset String

/-- One user-visible state transition of the part_001 variant.
`initializeBoard` there only replaces the words (it does not touch
`selectedIds`); `handleResetLayout` (lines 110-114) re-runs
`calculateResponsiveLayout` on the current texts — minting fresh
`word-${i}-${Date.now()}` ids — and also leaves `selectedIds` alone;
toggling is only offered on rendered tiles, so its id is a tile id. -/
inductive CanvasStep1 : CanvasState → CanvasState → Prop
  | initBoard (s : CanvasState) (wordList : List String) (width : ℚ) (now : Nat) :
      CanvasStep1 s ⟨calculateResponsiveLayout1 wordList width now, s.selected⟩
  | toggleSelect (s : CanvasState) (id : String)
      (hid : id ∈ s.words.map WordItem.id) :
      CanvasStep1 s ⟨s.words, handleToggleSelect s.selected id⟩
  | resetLayout (s : CanvasState) (width : ℚ) (now : Nat) :
      CanvasStep1 s
        ⟨calculateResponsiveLayout1 (s.words.map WordItem.text) width now,
         s.selected⟩
  | dragEnd (s : CanvasState) (activeId : String) (dx dy : ℚ) :
      CanvasStep1 s ⟨handleDragEnd1 activeId dx dy s.words, s.selected⟩

/-- The claimed invariant: every selected id names a tile on the board. -/
def selectionConsistent (s : CanvasState) : Prop :=
  ∀ id ∈ s.selected, id ∈ s.words.map WordItem.id

/-- The state reached in part_001 by loading the one-word puzzle "APPLE" at
width 1000 and timestamp 0, selecting its tile, and resetting the layout
at timestamp 1. -/
def cexState1 : CanvasState :=
  ⟨calculateResponsiveLayout1 ["APPLE"] 1000 0, ∅⟩

def cexState2 : CanvasState :=
  ⟨cexState1.words, handleToggleSelect cexState1.selected "word-0-0"⟩

def cexState3 : CanvasState :=
  ⟨calculateResponsiveLayout1 (cexState2.words.map WordItem.text) 1000 1,
   cexState2.selected⟩

/-- C5 counterexample: in the part_001 variant, the state reached by
init-board("APPLE")@t=0, toggle-select of its tile id "word-0-0", then
reset-layout@t=1 is reachable, yet its selection holds the stale id
"word-0-0" while the board's only tile is now "word-0-1": the selection
is not a subset of the board ids. -/
theorem reset_layout_breaks_selection :
    Relation.ReflTransGen CanvasStep1 ⟨[], ∅⟩ cexState3 ∧
      ¬ selectionConsistent cexState3 := by
  constructor
  · have h1 : CanvasStep1 ⟨[], ∅⟩ cexState1 :=
      CanvasStep1.initBoard ⟨[], ∅⟩ ["APPLE"] 1000 0
    have h2 : CanvasStep1 cexState1 cexState2 :=
      CanvasStep1.toggleSelect cexState1 "word-0-0" (by decide)
    have h3 : CanvasStep1 cexState2 cexState3 :=
      CanvasStep1.resetLayout cexState2 1000 1
    exact ((Relation.ReflTransGen.refl.tail h1).tail h2).tail h3
  · intro hcon
    exact absurd (hcon "word-0-0" (by decide)) (by decide)

/-- UI state of `src/App.tsx`: tile list plus selected ids. -/
structure AppState where
  words : List WordItem
  selected : Finset String

/-- One user-visible state transition of the App.tsx variant:
`initializeBoard` (lines 33-56) clears the selection; toggling is only
offered on rendered tiles; `handleResetPositions` and `handleDragEnd` keep
tile ids; `applySuggestion` (lines 156-179) clears the selection when it
changes the board and leaves both otherwise. -/
inductive AppStep : AppState → AppState → Prop
  | initBoard (s : AppState) (wordList : List String) (sw : ℚ) (now : Nat) :
      AppStep s ⟨initializeBoard wordList sw now, ∅⟩
  | toggleSelect (s : AppState) (id : String)
      (hid : id ∈ s.words.map WordItem.id) :
      AppStep s ⟨s.words, handleToggleSelect s.selected id⟩
  | resetPositions (s : AppState) (sw : ℚ) :
      AppStep s ⟨handleResetPositions s.words sw, s.selected⟩
  | dragEnd (s : AppState) (activeId : String) (dx dy : ℚ) :
      AppStep s ⟨handleDragEndApp activeId dx dy s.words, s.selected⟩
  | applySugg (s : AppState) (sugg : GroupSuggestion) (index : Nat) :
      AppStep s ⟨applySuggestion sugg index s.words,
        if (s.words.filter (fun w => sugg.words.contains w.text)).length = 4
        then ∅ else s.selected⟩

def appSelectionConsistent (s : AppState) : Prop :=
  ∀ id ∈ s.selected, id ∈ s.words.map WordItem.id

theorem handleToggleSelect_mem (sel : Finset String) (id x : String)
    (hx : x ∈ handleToggleSelect sel id) : x ∈ sel ∨ x = id := by
  unfold handleToggleSelect at hx
  split at hx
  · exact Or.inl (Finset.mem_of_mem_erase hx)
  · split at hx
    · rcases Finset.mem_insert.mp hx with h | h
      · exact Or.inr h
      · exact Or.inl h
    · exact Or.inl hx

theorem regridAux_map_id (startX extra : ℚ) :
    ∀ (l : List WordItem) (i : Nat),
      (regridAux startX extra i l).map WordItem.id = l.map WordItem.id := by
  intro l
  induction l with
  | nil => intro i; rfl
  | cons w rest ih =>
    intro i
    simp only [regridAux, List.map_cons]
    rw [ih (i + 1)]

theorem handleResetPositions_mem_ids (ws : List WordItem) (sw : ℚ)
    (x : String) :
    x ∈ (handleResetPositions ws sw).map WordItem.id ↔
      x ∈ ws.map WordItem.id := by
  unfold handleResetPositions
  dsimp only
  rw [List.map_append, regridAux_map_id]
  have hperm := (List.filter_append_perm (fun w : WordItem => w.isLocked) ws).map
    WordItem.id
  rw [List.map_append] at hperm
  exact hperm.mem_iff

theorem handleDragEndApp_map_id (activeId : String) (dx dy : ℚ)
    (ws : List WordItem) :
    (handleDragEndApp activeId dx dy ws).map WordItem.id =
      ws.map WordItem.id := by
  unfold handleDragEndApp
  rw [List.map_map]
  congr 1
  funext w
  simp only [Function.comp_apply]
  split
  · rfl
  · rfl

theorem applySuggestion_map_id (sugg : GroupSuggestion) (index : Nat)
    (ws : List WordItem) :
    (applySuggestion sugg index ws).map WordItem.id = ws.map WordItem.id := by
  unfold applySuggestion
  dsimp only
  split
  · rfl
  · rw [List.map_map]
    congr 1
    funext w
    simp only [Function.comp_apply]
    split
    · rfl
    · rfl

/-- C5 amended: in the App.tsx variant — where board initialization and a
successful suggestion clear the selection, and repositioning operations
keep tile ids — every state reachable from the empty board has every
selected id naming a tile on the board.  (As `reset_layout_breaks_selection`
shows, this fails in the part_001/part_002 variants, whose reset-layout
mints fresh tile ids without clearing the selection.) -/
theorem selection_ids_on_board (s : AppState)
    (h : Relation.ReflTransGen AppStep ⟨[], ∅⟩ s) :
    appSelectionConsistent s := by
  induction h with
  | refl =>
    intro id hid
    exact absurd hid (Finset.not_mem_empty id)
  | @tail b c hsteps hstep ih =>
    cases hstep with
    | initBoard wordList sw now =>
      intro id hid
      exact absurd hid (Finset.not_mem_empty id)
    | toggleSelect id hid =>
      intro x hx
      rcases handleToggleSelect_mem b.selected id x hx with h' | h'
      · exact ih x h'
      · rw [h']; exact hid
    | resetPositions sw =>
      intro x hx
      exact (handleResetPositions_mem_ids b.words sw x).mpr (ih x hx)
    | dragEnd activeId dx dy =>
      intro x hx
      rw [handleDragEndApp_map_id]
      exact ih x hx
    | applySugg sugg index =>
      intro x hx
      by_cases hc :
        (b.words.filter (fun w => sugg.words.contains w.text)).length = 4
      · rw [if_pos hc] at hx
        exact absurd hx (Finset.not_mem_empty x)
      · rw [if_neg hc] at hx
        rw [applySuggestion_map_id]
        exact ih x hx

/-- Concrete check of the amended invariant: the state reached by loading a
board and selecting its first tile keeps the selection inside the board
ids. -/
theorem selection_ids_on_board_witness :
    Relation.ReflTransGen AppStep ⟨[], ∅⟩
      ⟨initializeBoard ["APPLE"] 800 0,
       handleToggleSelect ∅ (mkId 0 0)⟩ ∧
    appSelectionConsistent
      ⟨initializeBoard ["APPLE"] 800 0,
       handleToggleSelect ∅ (mkId 0 0)⟩ :=
  have h1 : AppStep ⟨[], ∅⟩ ⟨initializeBoard ["APPLE"] 800 0, ∅⟩ :=
    AppStep.initBoard ⟨[], ∅⟩ ["APPLE"] 800 0
  have h2 : AppStep ⟨initializeBoard ["APPLE"] 800 0, ∅⟩
      ⟨initializeBoard ["APPLE"] 800 0, handleToggleSelect ∅ (mkId 0 0)⟩ :=
    AppStep.toggleSelect ⟨initializeBoard ["APPLE"] 800 0, ∅⟩ (mkId 0 0)
      (by decide)
  have hreach : Relation.ReflTransGen AppStep ⟨[], ∅⟩
      ⟨initializeBoard ["APPLE"] 800 0, handleToggleSelect ∅ (mkId 0 0)⟩ :=
    (Relation.ReflTransGen.refl.tail h1).tail h2
  ⟨hreach, selection_ids_on_board _ hreach⟩

/-! ## Manual word-list input -/

/-- ASCII whitespace removed by JS `String.prototype.trim`. -/
def isJsSpace (c : Char) : Bool :=
  c = ' ' ∨ c = '\t' ∨ c = '\n' ∨ c = '\r' ∨ c.toNat = 11 ∨ c.toNat = 12

/-- `trim()` on a character list: strip leading and trailing whitespace. -/
def jsTrim (cs : List Char) : List Char :=
  (((cs.dropWhile isJsSpace).reverse).dropWhile isJsSpace).reverse

/-- Split on separator characters.  Adjacent separators produce empty
segments here; the caller filters empty entries out afterwards, which
makes this equivalent to splitting on the source's run-collapsing regex
`/[\n,;\t]+/`. -/
def splitOnSeps (isSep : Char → Bool) : List Char → List Char → List (List Char)
  | [], acc => [acc.reverse]
  | c :: cs, acc =>
    if isSep c then acc.reverse :: splitOnSeps isSep cs []
    else splitOnSeps isSep cs (c :: acc)

/-- The separator class of `handleParse` in `src/unnamed/part_003`
(line 33): newline, comma, semicolon and tab (`/[\n,;\t]+/`). -/
def isSepChar (c : Char) : Bool :=
  c = '\n' ∨ c = ',' ∨ c = ';' ∨ c = '\t'

/-- Separator class as the claim words it: comma, newline and semicolon
only — no tab.  Kept for comparison with `isSepChar`. -/
def isSepClaimChar (c : Char) : Bool :=
  c = '\n' ∨ c = ',' ∨ c = ';'

/-- First-occurrence deduplication, as JS `Array.from(new Set(xs))`. -/
def dedupFirstAux : List String → List String → List String
  | [], _ => []
  | x :: xs, seen =>
    if x ∈ seen then dedupFirstAux xs seen
    else x :: dedupFirstAux xs (x :: seen)

def dedupFirst (l : List String) : List String :=
  dedupFirstAux l []

/-- Tokenization pipeline of `handleParse` in `src/unnamed/part_003`
(lines 31-45): split, trim and uppercase each piece, drop empties,
deduplicate.  (`toUpperCase` is modelled per-character on ASCII.) -/
def tokenizeWith (isSep : Char → Bool) (text : String) : List String :=
  dedupFirst
    (((splitOnSeps isSep text.data []).map
        (fun t => String.mk ((jsTrim t).map Char.toUpper))).filter
      (fun w => decide (0 < w.length)))

def parseWordsInput (text : String) : List String :=
  tokenizeWith isSepChar text

/-- Tokenizer following the claim's words (comma/newline/semicolon
separators only), used to compare the claim against the source. -/
def claimTokenize (text : String) : List String :=
  tokenizeWith isSepClaimChar text

/-- Outcome of submitting the manual-entry form. -/
inductive ParseOutcome where
  | start (words : List String)
  | reject (message : String)
deriving DecidableEq

/-- `handleParse` from `src/unnamed/part_003` (lines 31-45): start the
board when exactly 16 unique words were entered, otherwise show the inline
error naming the actual count. -/
def handleParse (text : String) : ParseOutcome :=
  let uniqueWords := parseWordsInput text
  if uniqueWords.length ≠ 16 then
    .reject ("We need exactly 16 unique words. You have " ++
      toString uniqueWords.length ++ ".")
  else .start uniqueWords

theorem dedupFirstAux_nodup :
    ∀ (l seen : List String),
      (dedupFirstAux l seen).Nodup ∧ ∀ x ∈ dedupFirstAux l seen, x ∉ seen := by
  intro l
  induction l with
  | nil => intro seen; exact ⟨List.nodup_nil, by intro x hx; cases hx⟩
  | cons x xs ih =>
    intro seen
    by_cases hx : x ∈ seen
    · rw [dedupFirstAux, if_pos hx]
      exact ih seen
    · rw [dedupFirstAux, if_neg hx]
      obtain ⟨hnd, hout⟩ := ih (x :: seen)
      constructor
      · exact List.nodup_cons.mpr
          ⟨fun hmem => hout x hmem (List.mem_cons_self _ _), hnd⟩
      · intro y hy
        rcases List.mem_cons.mp hy with h | h
        · rw [h]; exact hx
        · intro hy'
          exact hout y h (List.mem_cons_of_mem _ hy')

/-- C7 counterexample: on the 16 tab-separated words "A" through "P" the
source's tokenizer (which also splits on tab) yields 16 words and starts
the board, while the claim's comma/newline/semicolon tokenizer yields a
single token, under which the claim would predict a blocked submission
with an error naming the count 1. -/
theorem tab_separator_counterexample :
    handleParse "A\tB\tC\tD\tE\tF\tG\tH\tI\tJ\tK\tL\tM\tN\tO\tP" =
      .start ["A", "B", "C", "D", "E", "F", "G", "H", "I", "J", "K", "L",
              "M", "N", "O", "P"] ∧
    (claimTokenize "A\tB\tC\tD\tE\tF\tG\tH\tI\tJ\tK\tL\tM\tN\tO\tP").length
      = 1 := by
  constructor
  · decide
  · decide

/-- C7 amended: manual input is split on comma, newline, semicolon or tab,
each token trimmed and uppercased, empty tokens dropped and duplicates
removed (the resulting list is duplicate-free); a 16-token list starts the
board with those words, any other count k blocks the submission with the
inline message "We need exactly 16 unique words. You have k.". -/
theorem manual_input_requires_16 (text : String) :
    (parseWordsInput text).Nodup ∧
    ((parseWordsInput text).length = 16 →
      handleParse text = .start (parseWordsInput text)) ∧
    ((parseWordsInput text).length ≠ 16 →
      handleParse text = .reject
        ("We need exactly 16 unique words. You have " ++
          toString (parseWordsInput text).length ++ ".")) := by
  refine ⟨?_, ?_, ?_⟩
  · exact (dedupFirstAux_nodup _ []).1
  · intro h16
    unfold handleParse
    rw [if_neg (fun h => h h16)]
  · intro hne
    unfold handleParse
    rw [if_pos hne]

/-- Concrete check of the amended input claim: the spec's example
separators (comma, newline, semicolon) with 16 unique words start the
board. -/
theorem manual_input_requires_16_witness :
    (parseWordsInput
        "CAT, DOG\nFISH;BIRD,W5,W6,W7,W8,W9,W10,W11,W12,W13,W14,W15,W16").length
      = 16 ∧
    handleParse
        "CAT, DOG\nFISH;BIRD,W5,W6,W7,W8,W9,W10,W11,W12,W13,W14,W15,W16" =
      .start (parseWordsInput
        "CAT, DOG\nFISH;BIRD,W5,W6,W7,W8,W9,W10,W11,W12,W13,W14,W15,W16") :=
  ⟨by decide,
   (manual_input_requires_16
      "CAT, DOG\nFISH;BIRD,W5,W6,W7,W8,W9,W10,W11,W12,W13,W14,W15,W16").2.1
     (by decide)⟩

/-! ## Share links: base64

`handleShare` (src/App.tsx lines 228-236) produces
`btoa(JSON.stringify(unique))`; the URL-param effect (lines 59-73) decodes
with `atob` and `JSON.parse`.  `btoa`/`atob` are the browser's
latin-1/base64 codecs: `btoa` throws on any character above U+00FF
(modelled as `none`), `atob` implements forgiving-base64 decoding. -/

def b64Table : List Char :=
  "ABCDEFGHIJKLMNOPQRSTUVWXYZabcdefghijklmnopqrstuvwxyz0123456789+/".data

def encB64 (n : Nat) : Char := b64Table.getD n 'A'

def decB64 (c : Char) : Option Nat :=
  if c ∈ b64Table then some (b64Table.indexOf c) else none

/-- Bytes to 6-bit groups, 3 bytes at a time. -/
def toSextets : List Nat → List Nat
  | [] => []
  | [b1] => [b1 / 4, b1 % 4 * 16]
  | [b1, b2] => [b1 / 4, b1 % 4 * 16 + b2 / 16, b2 % 16 * 4]
  | b1 :: b2 :: b3 :: rest =>
    (b1 / 4) :: (b1 % 4 * 16 + b2 / 16) :: (b2 % 16 * 4 + b3 / 64) ::
      (b3 % 64) :: toSextets rest

/-- 6-bit groups back to bytes, 4 at a time (trailing bits discarded). -/
def fromSextets : List Nat → List Nat
  | [] => []
  | [_] => []
  | [s1, s2] => [s1 * 4 + s2 / 16]
  | [s1, s2, s3] => [s1 * 4 + s2 / 16, s2 % 16 * 16 + s3 / 4]
  | s1 :: s2 :: s3 :: s4 :: rest =>
    (s1 * 4 + s2 / 16) :: (s2 % 16 * 16 + s3 / 4) :: (s3 % 4 * 64 + s4) ::
      fromSextets rest

def padChars (n : Nat) : List Char :=
  match n % 3 with
  | 0 => []
  | 1 => ['=', '=']
  | _ => ['=']

/-- `window.btoa`: base64 of a latin-1 string; characters above U+00FF
raise `InvalidCharacterError` (here: `none`). -/
def btoa (cs : List Char) : Option (List Char) :=
  if cs.all (fun c => decide (c.toNat < 256)) then
    some ((toSextets (cs.map Char.toNat)).map encB64 ++ padChars cs.length)
  else none

/-- ASCII whitespace stripped by forgiving-base64 decoding. -/
def isB64Ws (c : Char) : Bool :=
  c = ' ' ∨ c = '\t' ∨ c = '\n' ∨ c = '\r' ∨ c = Char.ofNat 12

/-- Remove up to two leading padding characters of a reversed string. -/
def stripPaddingRev : List Char → List Char
  | '=' :: '=' :: rest => rest
  | '=' :: rest => rest
  | other => other

/-- Remove up to two trailing base64 padding characters. -/
def stripPadding (cs : List Char) : List Char :=
  (stripPaddingRev cs.reverse).reverse

/-- `window.atob`: forgiving-base64 decode to a byte list; `none` models
the thrown `InvalidCharacterError`. -/
def atob (input : List Char) : Option (List Nat) :=
  let data := input.filter (fun c => !isB64Ws c)
  let data := if data.length % 4 = 0 then stripPadding data else data
  if data.length % 4 = 1 then none
  else
    match data.mapM decB64 with
    | some sextets => some (fromSextets sextets)
    | none => none

/-! ## Share links: JSON

`JSON.stringify` is modelled at the only type the source serializes
(arrays of strings, with the standard escape rules); `JSON.parse` is a
recursive-descent reader of the JSON grammar over the decoded characters
(number tokens are kept as raw lexemes, which the source never consumes). -/

inductive Json where
  | null
  | bool (b : Bool)
  | num (raw : String)
  | str (s : String)
  | arr (elems : List Json)
  | obj (fields : List (String × Json))

def hexDigitChar (n : Nat) : Char := "0123456789abcdef".data.getD n '0'

def hexVal (c : Char) : Option Nat :=
  if '0' ≤ c ∧ c ≤ '9' then some (c.toNat - 48)
  else if 'a' ≤ c ∧ c ≤ 'f' then some (c.toNat - 87)
  else if 'A' ≤ c ∧ c ≤ 'F' then some (c.toNat - 55)
  else none

/-- JSON short escapes (`\" \\ \/ \b \f \n \r \t`). -/
def escChar (e : Char) : Option Char :=
  if e = '"' then some '"'
  else if e = '\\' then some '\\'
  else if e = '/' then some '/'
  else if e = 'b' then some (Char.ofNat 8)
  else if e = 'f' then some (Char.ofNat 12)
  else if e = 'n' then some '\n'
  else if e = 'r' then some '\r'
  else if e = 't' then some '\t'
  else none

/-- Body of a JSON string literal (after the opening quote); returns the
decoded characters and the input after the closing quote. -/
def parseStringBody : List Char → Option (List Char × List Char)
  | [] => none
  | '"' :: rest => some ([], rest)
  | '\\' :: 'u' :: h1 :: h2 :: h3 :: h4 :: rest =>
    match hexVal h1, hexVal h2, hexVal h3, hexVal h4 with
    | some v1, some v2, some v3, some v4 =>
      match parseStringBody rest with
      | some (s, r) =>
        some (Char.ofNat (((v1 * 16 + v2) * 16 + v3) * 16 + v4) :: s, r)
      | none => none
    | _, _, _, _ => none
  | '\\' :: e :: rest =>
    match escChar e with
    | some c =>
      match parseStringBody rest with
      | some (s, r) => some (c :: s, r)
      | none => none
    | none => none
  | c :: rest =>
    if c.toNat < 32 then none
    else
      match parseStringBody rest with
      | some (s, r) => some (c :: s, r)
      | none => none

def skipWs : List Char → List Char
  | [] => []
  | c :: cs =>
    if c = ' ' ∨ c = '\t' ∨ c = '\n' ∨ c = '\r' then skipWs cs else c :: cs

def isNumChar (c : Char) : Bool :=
  c.isDigit ∨ c = '-' ∨ c = '+' ∨ c = '.' ∨ c = 'e' ∨ c = 'E'

mutual

/-- One JSON value (no leading whitespace); the fuel bounds the recursion
through nested arrays/objects and exceeds any input's nesting depth when
set to the input length plus one. -/
def parseValue : Nat → List Char → Option (Json × List Char)
  | 0, _ => none
  | fuel + 1, cs =>
    match cs with
    | '"' :: rest =>
      match parseStringBody rest with
      | some (s, r) => some (.str (String.mk s), r)
      | none => none
    | '[' :: rest =>
      match skipWs rest with
      | ']' :: r => some (.arr [], r)
      | rest2 =>
        match parseElems fuel rest2 with
        | some (vs, r) => some (.arr vs, r)
        | none => none
    | '{' :: rest =>
      match skipWs rest with
      | '}' :: r => some (.obj [], r)
      | rest2 =>
        match parseFields fuel rest2 with
        | some (fs, r) => some (.obj fs, r)
        | none => none
    | 'n' :: 'u' :: 'l' :: 'l' :: rest => some (.null, rest)
    | 't' :: 'r' :: 'u' :: 'e' :: rest => some (.bool true, rest)
    | 'f' :: 'a' :: 'l' :: 's' :: 'e' :: rest => some (.bool false, rest)
    | c :: rest =>
      if c = '-' ∨ c.isDigit then
        some (.num (String.mk (c :: rest.takeWhile isNumChar)),
          rest.dropWhile isNumChar)
      else none
    | [] => none

/-- Comma-separated values up to the closing bracket. -/
def parseElems : Nat → List Char → Option (List Json × List Char)
  | 0, _ => none
  | fuel + 1, cs =>
    match parseValue fuel cs with
    | some (v, rest) =>
      match skipWs rest with
      | ',' :: r2 =>
        match parseElems fuel (skipWs r2) with
        | some (vs, r) => some (v :: vs, r)
        | none => none
      | ']' :: r2 => some ([v], r2)
      | _ => none
    | none => none

/-- Comma-separated `"key": value` pairs up to the closing brace. -/
def parseFields : Nat → List Char → Option (List (String × Json) × List Char)
  | 0, _ => none
  | fuel + 1, cs =>
    match cs with
    | '"' :: rest =>
      match parseStringBody rest with
      | some (k, r) =>
        match skipWs r with
        | ':' :: r2 =>
          match parseValue fuel (skipWs r2) with
          | some (v, r3) =>
            match skipWs r3 with
            | ',' :: r4 =>
              match parseFields fuel (skipWs r4) with
              | some (fs, r5) => some ((String.mk k, v) :: fs, r5)
              | none => none
            | '}' :: r4 => some ([(String.mk k, v)], r4)
            | _ => none
          | none => none
        | _ => none
      | none => none
    | _ => none

end

/-- `JSON.parse` on a character list: one value, with surrounding
whitespace, nothing after it. -/
def parseJson (cs : List Char) : Option Json :=
  match parseValue (cs.length + 1) (skipWs cs) with
  | some (v, rest) => if skipWs rest = [] then some v else none
  | none => none

/-- One character of `JSON.stringify` string-escaping. -/
def escapeChar (c : Char) : List Char :=
  if c = '"' then ['\\', '"']
  else if c = '\\' then ['\\', '\\']
  else if 32 ≤ c.toNat then [c]
  else if c = Char.ofNat 8 then ['\\', 'b']
  else if c = '\t' then ['\\', 't']
  else if c = '\n' then ['\\', 'n']
  else if c = Char.ofNat 12 then ['\\', 'f']
  else if c = '\r' then ['\\', 'r']
  else ['\\', 'u', '0', '0',
    hexDigitChar (c.toNat / 16), hexDigitChar (c.toNat % 16)]

/-- `JSON.stringify` of one string. -/
def stringifyString (s : String) : List Char :=
  '"' :: (s.data.bind escapeChar ++ ['"'])

def serializeElems : List String → List Char
  | [] => []
  | [s] => stringifyString s
  | s :: rest => stringifyString s ++ ',' :: serializeElems rest

/-- `JSON.stringify` of an array of strings. -/
def stringifyStringArr (l : List String) : List Char :=
  '[' :: (serializeElems l ++ [']'])

/-- `handleShare` from `src/App.tsx` (lines 228-236): nothing happens on an
empty board; otherwise the word texts are deduplicated, serialized to JSON
and base64-encoded into the `p` query parameter (`none` when `btoa`
throws). -/
def encodeShare (wordTexts : List String) : Option String :=
  if wordTexts.length = 0 then none
  else
    match btoa (stringifyStringArr (dedupFirst wordTexts)) with
    | some cs => some (String.mk cs)
    | none => none

/-- The URL-parameter effect from `src/App.tsx` (lines 59-73): decode the
`p` parameter with `atob` + `JSON.parse`; the board is started exactly
when the result is an array of length 16 (`some elems`); any decode
failure is caught and leaves the board unstarted (`none`). -/
def loadPuzzleParam (p : Option String) : Option (List Json) :=
  match p with
  | none => none
  | some tok =>
    match atob tok.data with
    | none => none
    | some bytes =>
      match parseJson (bytes.map Char.ofNat) with
      | some (Json.arr elems) =>
        if elems.length = 16 then some elems else none
      | some _ => none
      | none => none

/-! ## Base64 round trip -/

theorem decB64_encB64 : ∀ n, n < 64 → decB64 (encB64 n) = some n := by decide

theorem encB64_not_ws : ∀ n, n < 64 → isB64Ws (encB64 n) = false := by decide

theorem encB64_ne_pad : ∀ n, n < 64 → encB64 n ≠ '=' := by decide

theorem toSextets_lt :
    ∀ (bs : List Nat), (∀ b ∈ bs, b < 256) → ∀ s ∈ toSextets bs, s < 64 := by
  intro bs
  induction bs using toSextets.induct with
  | case1 =>
    intro _ s hs
    simp [toSextets] at hs
  | case2 b1 =>
    intro h s hs
    have hb1 : b1 < 256 := h b1 (List.mem_cons_self _ _)
    simp only [toSextets, List.mem_cons, List.not_mem_nil, or_false] at hs
    rcases hs with h' | h' <;> omega
  | case3 b1 b2 =>
    intro h s hs
    have hb1 : b1 < 256 := h b1 (by simp)
    have hb2 : b2 < 256 := h b2 (by simp)
    simp only [toSextets, List.mem_cons, List.not_mem_nil, or_false] at hs
    rcases hs with h' | h' | h' <;> omega
  | case4 b1 b2 b3 rest ih =>
    intro h s hs
    have hb1 : b1 < 256 := h b1 (by simp)
    have hb2 : b2 < 256 := h b2 (by simp)
    have hb3 : b3 < 256 := h b3 (by simp)
    simp only [toSextets, List.mem_cons] at hs
    rcases hs with h' | h' | h' | h' | h'
    · omega
    · omega
    · omega
    · omega
    · exact ih (fun b hb => h b (by simp [hb])) s h'

theorem fromSextets_toSextets :
    ∀ (bs : List Nat), (∀ b ∈ bs, b < 256) →
      fromSextets (toSextets bs) = bs := by
  intro bs
  induction bs using toSextets.induct with
  | case1 => intro _; rfl
  | case2 b1 =>
    intro h
    have hb1 : b1 < 256 := h b1 (List.mem_cons_self _ _)
    simp only [toSextets, fromSextets, List.cons.injEq, and_true]
    omega
  | case3 b1 b2 =>
    intro h
    have hb1 : b1 < 256 := h b1 (by simp)
    have hb2 : b2 < 256 := h b2 (by simp)
    simp only [toSextets, fromSextets, List.cons.injEq, and_true]
    constructor
    · omega
    · omega
  | case4 b1 b2 b3 rest ih =>
    intro h
    have hb1 : b1 < 256 := h b1 (by simp)
    have hb2 : b2 < 256 := h b2 (by simp)
    have hb3 : b3 < 256 := h b3 (by simp)
    simp only [toSextets, fromSextets, List.cons.injEq]
    refine ⟨by omega, by omega, by omega, ?_⟩
    exact ih (fun b hb => h b (by simp [hb]))

theorem padChars_add_three (n : Nat) : padChars (n + 3) = padChars n := by
  unfold padChars
  rw [Nat.add_mod_right]

theorem btoa_out_len :
    ∀ (bs : List Nat),
      ((toSextets bs).length + (padChars bs.length).length) % 4 = 0 := by
  intro bs
  induction bs using toSextets.induct with
  | case1 => rfl
  | case2 b1 => simp [toSextets, padChars]
  | case3 b1 b2 => simp [toSextets, padChars]
  | case4 b1 b2 b3 rest ih =>
    show ((toSextets (b1 :: b2 :: b3 :: rest)).length +
      (padChars (rest.length + 3)).length) % 4 = 0
    rw [padChars_add_three]
    simp only [toSextets, List.length_cons]
    omega

theorem mapM_decB64 :
    ∀ (ns : List Nat), (∀ n ∈ ns, n < 64) →
      (ns.map encB64).mapM decB64 = some ns := by
  intro ns
  induction ns with
  | nil => intro _; rfl
  | cons n rest ih =>
    intro h
    have hn : n < 64 := h n (List.mem_cons_self _ _)
    simp only [List.map_cons, List.mapM_cons]
    rw [decB64_encB64 n hn, ih (fun m hm => h m (List.mem_cons_of_mem _ hm))]
    rfl

theorem stripPaddingRev_two (ys : List Char) :
    stripPaddingRev ('=' :: '=' :: ys) = ys := rfl

theorem stripPaddingRev_one (ys : List Char) (h : ∀ c ∈ ys, c ≠ '=') :
    stripPaddingRev ('=' :: ys) = ys := by
  cases ys with
  | nil => rfl
  | cons c t =>
    have hc : c ≠ '=' := h c (List.mem_cons_self _ _)
    unfold stripPaddingRev
    split
    · rename_i rest heq
      injection heq with _ h2
      injection h2 with h2a _
      exact absurd h2a hc
    · rename_i rest heq
      injection heq with _ h2
      rw [h2]
    · rename_i hno1 hno2
      exact absurd rfl (hno2 (c :: t))

theorem stripPaddingRev_of_no_pad (ys : List Char) (h : ∀ c ∈ ys, c ≠ '=') :
    stripPaddingRev ys = ys := by
  cases ys with
  | nil => rfl
  | cons c t =>
    have hc : c ≠ '=' := h c (List.mem_cons_self _ _)
    unfold stripPaddingRev
    split
    · rename_i rest heq
      injection heq with h1 _
      exact absurd h1 hc
    · rename_i rest heq
      injection heq with h1 _
      exact absurd h1 hc
    · rfl

theorem padChars_cases (n : Nat) :
    padChars n = [] ∨ padChars n = ['=', '='] ∨ padChars n = ['='] := by
  unfold padChars
  rcases h3 : n % 3 with _ | m
  · exact Or.inl rfl
  · rcases m with _ | m'
    · exact Or.inr (Or.inl rfl)
    · exact Or.inr (Or.inr rfl)

theorem stripPadding_append_pad (xs : List Char) (n : Nat)
    (hxs : ∀ c ∈ xs, c ≠ '=') :
    stripPadding (xs ++ padChars n) = xs := by
  have hnp : ∀ c ∈ xs.reverse, c ≠ '=' :=
    fun c hc => hxs c (List.mem_reverse.mp hc)
  rcases padChars_cases n with hp | hp | hp <;> rw [hp]
  · rw [List.append_nil]
    unfold stripPadding
    rw [stripPaddingRev_of_no_pad _ hnp, List.reverse_reverse]
  · unfold stripPadding
    rw [List.reverse_append]
    show (stripPaddingRev ('=' :: '=' :: xs.reverse)).reverse = xs
    rw [stripPaddingRev_two, List.reverse_reverse]
  · unfold stripPadding
    rw [List.reverse_append]
    show (stripPaddingRev ('=' :: xs.reverse)).reverse = xs
    rw [stripPaddingRev_one _ hnp, List.reverse_reverse]

theorem padChars_mem (n : Nat) : ∀ c ∈ padChars n, c = '=' := by
  rcases padChars_cases n with hp | hp | hp <;> rw [hp]
  · intro c hc; cases hc
  · intro c hc
    rcases List.mem_cons.mp hc with h' | h'
    · exact h'
    · rcases List.mem_cons.mp h' with h'' | h''
      · exact h''
      · cases h''
  · intro c hc
    rcases List.mem_cons.mp hc with h' | h'
    · exact h'
    · cases h'

/-- `atob` inverts `btoa` on latin-1 strings: encoding a byte string and
decoding the result returns the original bytes. -/
theorem atob_btoa (cs : List Char) (h : ∀ c ∈ cs, c.toNat < 256) :
    btoa cs = some ((toSextets (cs.map Char.toNat)).map encB64 ++
      padChars cs.length) ∧
    atob ((toSextets (cs.map Char.toNat)).map encB64 ++ padChars cs.length) =
      some (cs.map Char.toNat) := by
  have hbytes : ∀ b ∈ cs.map Char.toNat, b < 256 := by
    intro b hb
    obtain ⟨c, hc, rfl⟩ := List.mem_map.mp hb
    exact h c hc
  have hsex : ∀ s ∈ toSextets (cs.map Char.toNat), s < 64 :=
    toSextets_lt _ hbytes
  constructor
  · unfold btoa
    rw [if_pos]
    simp only [List.all_eq_true, decide_eq_true_eq]
    exact h
  · unfold atob
    dsimp only
    have hfilter : ((toSextets (cs.map Char.toNat)).map encB64 ++
        padChars cs.length).filter (fun c => !isB64Ws c) =
        (toSextets (cs.map Char.toNat)).map encB64 ++ padChars cs.length := by
      rw [List.filter_eq_self]
      intro c hc
      rcases List.mem_append.mp hc with hm | hm
      · obtain ⟨s, hs, rfl⟩ := List.mem_map.mp hm
        rw [encB64_not_ws s (hsex s hs)]
        rfl
      · rw [padChars_mem cs.length c hm]
        decide
    rw [hfilter]
    have hlen : ((toSextets (cs.map Char.toNat)).map encB64 ++
        padChars cs.length).length % 4 = 0 := by
      rw [List.length_append, List.length_map]
      have h0 := btoa_out_len (cs.map Char.toNat)
      rwa [List.length_map] at h0
    rw [if_pos hlen]
    rw [stripPadding_append_pad _ _ (by
      intro c hc
      obtain ⟨s, hs, rfl⟩ := List.mem_map.mp hc
      exact encB64_ne_pad s (hsex s hs))]
    have hnot1 : ¬((toSextets (cs.map Char.toNat)).map encB64).length % 4 = 1 := by
      rw [List.length_map]
      have h0 := btoa_out_len (cs.map Char.toNat)
      rw [List.length_map] at h0
      have hple : (padChars cs.length).length ≤ 2 := by
        rcases padChars_cases cs.length with hp | hp | hp <;> rw [hp] <;> simp
      omega
    rw [if_neg hnot1]
    rw [mapM_decB64 _ hsex]
    show some (fromSextets (toSextets (cs.map Char.toNat))) = _
    rw [fromSextets_toSextets _ hbytes]

/-! ## JSON round trip -/

theorem hexVal_hexDigitChar : ∀ n, n < 16 → hexVal (hexDigitChar n) = some n := by
  decide

theorem skipWs_not_ws (c : Char) (cs : List Char)
    (h : ¬(c = ' ' ∨ c = '\t' ∨ c = '\n' ∨ c = '\r')) :
    skipWs (c :: cs) = c :: cs := by
  unfold skipWs
  rw [if_neg h]

/-- Step lemma: a plain (printable, unescaped) character at the head of a
string body is consumed as itself. -/
theorem psb_plain (c : Char) (tail : List Char) (hc1 : c ≠ '"')
    (hc2 : c ≠ '\\') (hc3 : ¬c.toNat < 32) :
    parseStringBody (c :: tail) =
      (parseStringBody tail).map (fun p => (c :: p.1, p.2)) := by
  rw [parseStringBody.eq_def]
  split
  · rename_i heq
    cases heq
  · rename_i rest heq
    injection heq with h1 _
    exact absurd h1 hc1
  · rename_i h1 h2 h3 h4 rest heq
    injection heq with hh _
    exact absurd hh hc2
  · rename_i e rest heq
    injection heq with hh _
    exact absurd hh hc2
  · rename_i c' rest heq
    injection heq with hh ht
    subst hh
    subst ht
    rw [if_neg hc3]
    cases hpt : parseStringBody tail with
    | none => rfl
    | some p => obtain ⟨s, r⟩ := p; rfl

/-- Step lemma: a short escape at the head of a string body decodes to its
escaped character. -/
theorem psb_esc (e ec : Char) (tail : List Char) (he : escChar e = some ec)
    (hu : e ≠ 'u') :
    parseStringBody ('\\' :: e :: tail) =
      (parseStringBody tail).map (fun p => (ec :: p.1, p.2)) := by
  rw [parseStringBody.eq_def]
  split
  · rename_i heq
    cases heq
  · rename_i rest heq
    injection heq with h1 _
    cases h1
  · rename_i hx1 hx2 hx3 hx4 rest heq
    injection heq with _ ht
    injection ht with hu' _
    exact absurd hu' hu
  · rename_i e' rest heq
    injection heq with _ ht
    injection ht with he' ht'
    subst he'
    subst ht'
    rw [he]
    cases hpt : parseStringBody tail with
    | none => rfl
    | some p => obtain ⟨s, r⟩ := p; rfl
  · rename_i hne1 hne2 hne3 heq
    injection heq with hh ht
    exact (hne3 e tail hh.symm ht.symm).elim

/-- Step lemma: a `\uXXXX` escape at the head of a string body decodes to
the character with that code. -/
theorem psb_unicode (h1 h2 h3 h4 : Char) (v1 v2 v3 v4 : Nat)
    (tail : List Char) (hv1 : hexVal h1 = some v1) (hv2 : hexVal h2 = some v2)
    (hv3 : hexVal h3 = some v3) (hv4 : hexVal h4 = some v4) :
    parseStringBody ('\\' :: 'u' :: h1 :: h2 :: h3 :: h4 :: tail) =
      (parseStringBody tail).map (fun p =>
        (Char.ofNat (((v1 * 16 + v2) * 16 + v3) * 16 + v4) :: p.1, p.2)) := by
  rw [parseStringBody.eq_def]
  simp only [hv1, hv2, hv3, hv4]
  cases hpt : parseStringBody tail with
  | none => rfl
  | some p => obtain ⟨s, r⟩ := p; rfl

/-- The JSON string escaper round-trips through the string-body reader. -/
theorem psb_roundtrip :
    ∀ (cs : List Char) (rest : List Char),
      parseStringBody (cs.bind escapeChar ++ '"' :: rest) = some (cs, rest) := by
  intro cs
  induction cs with
  | nil => intro rest; rfl
  | cons c cs' ih =>
    intro rest
    show parseStringBody
      ((escapeChar c ++ cs'.bind escapeChar) ++ '"' :: rest) = _
    rw [List.append_assoc]
    by_cases hq : c = '"'
    · subst hq
      show parseStringBody
        ('\\' :: '"' :: (cs'.bind escapeChar ++ '"' :: rest)) = _
      rw [psb_esc '"' '"' _ rfl (by decide), ih rest]
      rfl
    · by_cases hb : c = '\\'
      · subst hb
        show parseStringBody
          ('\\' :: '\\' :: (cs'.bind escapeChar ++ '"' :: rest)) = _
        rw [psb_esc '\\' '\\' _ rfl (by decide), ih rest]
        rfl
      · by_cases hge : 32 ≤ c.toNat
        · have hesc : escapeChar c = [c] := by
            unfold escapeChar
            rw [if_neg hq, if_neg hb, if_pos hge]
          rw [hesc]
          show parseStringBody (c :: (cs'.bind escapeChar ++ '"' :: rest)) = _
          rw [psb_plain c _ hq hb (by omega), ih rest]
          rfl
        · by_cases h8 : c = Char.ofNat 8
          · have hesc : escapeChar c = ['\\', 'b'] := by
              unfold escapeChar
              rw [if_neg hq, if_neg hb, if_neg hge, if_pos h8]
            rw [hesc]
            show parseStringBody
              ('\\' :: 'b' :: (cs'.bind escapeChar ++ '"' :: rest)) = _
            rw [psb_esc 'b' (Char.ofNat 8) _ rfl (by decide), ih rest, h8]
            rfl
          · by_cases ht : c = '\t'
            · have hesc : escapeChar c = ['\\', 't'] := by
                unfold escapeChar
                rw [if_neg hq, if_neg hb, if_neg hge, if_neg h8, if_pos ht]
              rw [hesc]
              show parseStringBody
                ('\\' :: 't' :: (cs'.bind escapeChar ++ '"' :: rest)) = _
              rw [psb_esc 't' '\t' _ rfl (by decide), ih rest, ht]
              rfl
            · by_cases hn : c = '\n'
              · have hesc : escapeChar c = ['\\', 'n'] := by
                  unfold escapeChar
                  rw [if_neg hq, if_neg hb, if_neg hge, if_neg h8, if_neg ht,
                    if_pos hn]
                rw [hesc]
                show parseStringBody
                  ('\\' :: 'n' :: (cs'.bind escapeChar ++ '"' :: rest)) = _
                rw [psb_esc 'n' '\n' _ rfl (by decide), ih rest, hn]
                rfl
              · by_cases h12 : c = Char.ofNat 12
                · have hesc : escapeChar c = ['\\', 'f'] := by
                    unfold escapeChar
                    rw [if_neg hq, if_neg hb, if_neg hge, if_neg h8, if_neg ht,
                      if_neg hn, if_pos h12]
                  rw [hesc]
                  show parseStringBody
                    ('\\' :: 'f' :: (cs'.bind escapeChar ++ '"' :: rest)) = _
                  rw [psb_esc 'f' (Char.ofNat 12) _ rfl (by decide), ih rest, h12]
                  rfl
                · by_cases hr : c = '\r'
                  · have hesc : escapeChar c = ['\\', 'r'] := by
                      unfold escapeChar
                      rw [if_neg hq, if_neg hb, if_neg hge, if_neg h8,
                        if_neg ht, if_neg hn, if_neg h12, if_pos hr]
                    rw [hesc]
                    show parseStringBody
                      ('\\' :: 'r' :: (cs'.bind escapeChar ++ '"' :: rest)) = _
                    rw [psb_esc 'r' '\r' _ rfl (by decide), ih rest, hr]
                    rfl
                  · have hesc : escapeChar c = ['\\', 'u', '0', '0',
                        hexDigitChar (c.toNat / 16), hexDigitChar (c.toNat % 16)] := by
                      unfold escapeChar
                      rw [if_neg hq, if_neg hb, if_neg hge, if_neg h8,
                        if_neg ht, if_neg hn, if_neg h12, if_neg hr]
                    rw [hesc]
                    show parseStringBody
                      ('\\' :: 'u' :: '0' :: '0' :: hexDigitChar (c.toNat / 16) ::
                        hexDigitChar (c.toNat % 16) ::
                        (cs'.bind escapeChar ++ '"' :: rest)) = _
                    rw [psb_unicode '0' '0' _ _ 0 0 (c.toNat / 16) (c.toNat % 16)
                      _ rfl rfl (hexVal_hexDigitChar _ (by omega))
                      (hexVal_hexDigitChar _ (by omega)), ih rest]
                    have harith :
                        ((0 * 16 + 0) * 16 + c.toNat / 16) * 16 + c.toNat % 16 =
                          c.toNat := by omega
                    rw [harith, Char.ofNat_toNat]
                    rfl

/-- A serialized string literal parses as that string value. -/
theorem parseValue_str (fuel : Nat) (s : String) (rest : List Char) :
    parseValue (fuel + 1) (stringifyString s ++ rest) =
      some (.str s, rest) := by
  show parseValue (fuel + 1)
    ('"' :: ((s.data.bind escapeChar ++ ['"']) ++ rest)) = _
  rw [List.append_assoc]
  show parseValue (fuel + 1)
    ('"' :: (s.data.bind escapeChar ++ '"' :: rest)) = _
  rw [parseValue]
  rw [psb_roundtrip]

theorem serializeElems_cons (x : String) (xs : List String) :
    ∃ t, serializeElems (x :: xs) = '"' :: t := by
  cases xs with
  | nil => exact ⟨_, rfl⟩
  | cons y ys => exact ⟨_, rfl⟩

theorem skipWs_serialize_cons (x : String) (xs : List String)
    (r : List Char) :
    skipWs (serializeElems (x :: xs) ++ r) = serializeElems (x :: xs) ++ r := by
  obtain ⟨t, ht⟩ := serializeElems_cons x xs
  rw [ht, List.cons_append]
  exact skipWs_not_ws '"' _ (by decide)

theorem stringifyString_length (s : String) :
    2 ≤ (stringifyString s).length := by
  show 2 ≤ ('"' :: (s.data.bind escapeChar ++ ['"'])).length
  rw [List.length_cons, List.length_append]
  simp

theorem serializeElems_length :
    ∀ (l : List String), l ≠ [] → 2 * l.length ≤ (serializeElems l).length := by
  intro l
  induction l with
  | nil => intro h; exact absurd rfl h
  | cons x xs ih =>
    intro _
    cases xs with
    | nil =>
      have := stringifyString_length x
      show 2 * ([x] : List String).length ≤ (stringifyString x).length
      simpa using this
    | cons y ys =>
      have h1 := ih (List.cons_ne_nil y ys)
      have h2 := stringifyString_length x
      show 2 * (x :: y :: ys : List String).length ≤
        (stringifyString x ++ ',' :: serializeElems (y :: ys)).length
      rw [List.length_append, List.length_cons]
      simp only [List.length_cons] at h1 ⊢
      omega

/-- A serialized nonempty element list followed by `]` parses as the list
of string values. -/
theorem parseElems_serialize :
    ∀ (l : List String) (f : Nat) (rest : List Char), l ≠ [] →
      parseElems (2 * l.length + f) (serializeElems l ++ ']' :: rest) =
        some (l.map Json.str, rest) := by
  intro l
  induction l with
  | nil => intro f rest h; exact absurd rfl h
  | cons x xs ih =>
    intro f rest _
    cases xs with
    | nil =>
      rw [show 2 * ([x] : List String).length + f = (f + 1) + 1 from by
        simp only [List.length_cons, List.length_nil]; omega]
      rw [parseElems]
      rw [show serializeElems [x] = stringifyString x from rfl]
      rw [parseValue_str]
      show (match skipWs (']' :: rest) with
        | ',' :: r2 =>
          match parseElems (f + 1) (skipWs r2) with
          | some (vs, r) => some (Json.str x :: vs, r)
          | none => none
        | ']' :: r2 => some ([Json.str x], r2)
        | _ => none) = some ([x].map Json.str, rest)
      rw [skipWs_not_ws ']' rest (by decide)]
      rfl
    | cons y ys =>
      rw [show 2 * (x :: y :: ys : List String).length + f =
          ((2 * (y :: ys : List String).length + f) + 1) + 1 from by
        simp only [List.length_cons]; ring]
      rw [parseElems]
      rw [show serializeElems (x :: y :: ys) =
        stringifyString x ++ ',' :: serializeElems (y :: ys) from rfl]
      rw [List.append_assoc, List.cons_append]
      rw [parseValue_str]
      show (match skipWs (',' :: (serializeElems (y :: ys) ++ ']' :: rest)) with
        | ',' :: r2 =>
          match parseElems ((2 * (y :: ys : List String).length + f) + 1)
              (skipWs r2) with
          | some (vs, r) => some (Json.str x :: vs, r)
          | none => none
        | ']' :: r2 => some ([Json.str x], r2)
        | _ => none) = some ((x :: y :: ys).map Json.str, rest)
      rw [skipWs_not_ws ',' _ (by decide)]
      show (match parseElems ((2 * (y :: ys : List String).length + f) + 1)
          (skipWs (serializeElems (y :: ys) ++ ']' :: rest)) with
        | some (vs, r) => some (Json.str x :: vs, r)
        | none => none) = some ((x :: y :: ys).map Json.str, rest)
      rw [skipWs_serialize_cons y ys (']' :: rest)]
      have ih' := ih (f + 1) rest (List.cons_ne_nil y ys)
      rw [show 2 * (y :: ys : List String).length + (f + 1) =
          (2 * (y :: ys : List String).length + f) + 1 from by ring] at ih'
      rw [ih']
      rfl

/-- `JSON.parse` inverts `JSON.stringify` on arrays of strings. -/
theorem parseJson_stringify (l : List String) :
    parseJson (stringifyStringArr l) = some (.arr (l.map .str)) := by
  unfold parseJson
  rw [show stringifyStringArr l = '[' :: (serializeElems l ++ [']'])
    from rfl]
  rw [skipWs_not_ws '[' _ (by decide)]
  rw [parseValue]
  cases l with
  | nil => rfl
  | cons x xs =>
    obtain ⟨t, ht⟩ := serializeElems_cons x xs
    rw [ht, List.cons_append]
    rw [skipWs_not_ws '"' _ (by decide)]
    have hlen : 2 * (x :: xs : List String).length ≤ t.length + 1 := by
      have h0 := serializeElems_length (x :: xs) (List.cons_ne_nil x xs)
      rw [ht] at h0
      simpa using h0
    show (match (match parseElems
        (('[' :: ('"' :: (t ++ [']']))).length)
        ('"' :: (t ++ [']'])) with
      | some (vs, r) => some (Json.arr vs, r)
      | none => none) with
    | some (v, rest) => if skipWs rest = [] then some v else none
    | none => none) = some (Json.arr ((x :: xs).map Json.str))
    have hf : ('[' :: ('"' :: (t ++ [']']))).length = t.length + 3 := by
      simp only [List.length_cons, List.length_append, List.length_nil]
    rw [hf]
    rw [show t.length + 3 = 2 * (x :: xs : List String).length +
        (t.length + 3 - 2 * (x :: xs : List String).length) from by omega]
    have hp := parseElems_serialize (x :: xs)
      (t.length + 3 - 2 * (x :: xs : List String).length) []
      (List.cons_ne_nil x xs)
    rw [ht, List.cons_append] at hp
    rw [hp]
    rfl

theorem hexDigitChar_latin (n : Nat) : (hexDigitChar n).toNat < 256 := by
  rcases Nat.lt_or_ge n 16 with h | h
  · revert h
    revert n
    decide
  · unfold hexDigitChar
    rw [List.getD_eq_default]
    · decide
    · rw [show ("0123456789abcdef".data).length = 16 from rfl]
      exact h

theorem escapeChar_latin (c : Char) (hc : c.toNat < 256) :
    ∀ d ∈ escapeChar c, d.toNat < 256 := by
  intro d hd
  unfold escapeChar at hd
  split_ifs at hd with h1 h2 h3 h4 h5 h6 h7 h8
  · rcases List.mem_cons.mp hd with h | h
    · rw [h]; decide
    · rcases List.mem_cons.mp h with h' | h'
      · rw [h']; decide
      · cases h'
  · rcases List.mem_cons.mp hd with h | h
    · rw [h]; decide
    · rcases List.mem_cons.mp h with h' | h'
      · rw [h']; decide
      · cases h'
  · rcases List.mem_cons.mp hd with h | h
    · rw [h]; exact hc
    · cases h
  · rcases List.mem_cons.mp hd with h | h
    · rw [h]; decide
    · rcases List.mem_cons.mp h with h' | h'
      · rw [h']; decide
      · cases h'
  · rcases List.mem_cons.mp hd with h | h
    · rw [h]; decide
    · rcases List.mem_cons.mp h with h' | h'
      · rw [h']; decide
      · cases h'
  · rcases List.mem_cons.mp hd with h | h
    · rw [h]; decide
    · rcases List.mem_cons.mp h with h' | h'
      · rw [h']; decide
      · cases h'
  · rcases List.mem_cons.mp hd with h | h
    · rw [h]; decide
    · rcases List.mem_cons.mp h with h' | h'
      · rw [h']; decide
      · cases h'
  · rcases List.mem_cons.mp hd with h | h
    · rw [h]; decide
    · rcases List.mem_cons.mp h with h' | h'
      · rw [h']; decide
      · cases h'
  · rcases List.mem_cons.mp hd with h | h
    · rw [h]; decide
    · rcases List.mem_cons.mp h with h' | h'
      · rw [h']; decide
      · rcases List.mem_cons.mp h' with h'' | h''
        · rw [h'']; decide
        · rcases List.mem_cons.mp h'' with h3' | h3'
          · rw [h3']; decide
          · rcases List.mem_cons.mp h3' with h4' | h4'
            · rw [h4']; exact hexDigitChar_latin _
            · rcases List.mem_cons.mp h4' with h5' | h5'
              · rw [h5']; exact hexDigitChar_latin _
              · cases h5'

theorem stringifyString_latin (s : String)
    (hs : ∀ c ∈ s.data, c.toNat < 256) :
    ∀ c ∈ stringifyString s, c.toNat < 256 := by
  intro c hc
  unfold stringifyString at hc
  rcases List.mem_cons.mp hc with h | h
  · rw [h]; decide
  · rcases List.mem_append.mp h with h' | h'
    · obtain ⟨a, ha, hmem⟩ := List.mem_bind.mp h'
      exact escapeChar_latin a (hs a ha) c hmem
    · rcases List.mem_cons.mp h' with h'' | h''
      · rw [h'']; decide
      · cases h''

theorem serializeElems_latin :
    ∀ (l : List String), (∀ s ∈ l, ∀ c ∈ s.data, c.toNat < 256) →
      ∀ c ∈ serializeElems l, c.toNat < 256 := by
  intro l
  induction l with
  | nil => intro _ c hc; cases hc
  | cons x xs ih =>
    intro h c hc
    cases xs with
    | nil =>
      exact stringifyString_latin x (h x (List.mem_cons_self _ _)) c hc
    | cons y ys =>
      rw [show serializeElems (x :: y :: ys) =
        stringifyString x ++ ',' :: serializeElems (y :: ys) from rfl] at hc
      rcases List.mem_append.mp hc with h' | h'
      · exact stringifyString_latin x (h x (List.mem_cons_self _ _)) c h'
      · rcases List.mem_cons.mp h' with h'' | h''
        · rw [h'']; decide
        · exact ih (fun s hs => h s (List.mem_cons_of_mem _ hs)) c h''

theorem stringifyStringArr_latin (l : List String)
    (h : ∀ s ∈ l, ∀ c ∈ s.data, c.toNat < 256) :
    ∀ c ∈ stringifyStringArr l, c.toNat < 256 := by
  intro c hc
  unfold stringifyStringArr at hc
  rcases List.mem_cons.mp hc with h' | h'
  · rw [h']; decide
  · rcases List.mem_append.mp h' with h'' | h''
    · exact serializeElems_latin l h c h''
    · rcases List.mem_cons.mp h'' with h3 | h3
      · rw [h3]; decide
      · cases h3

theorem dedupFirstAux_eq_self :
    ∀ (l seen : List String), l.Nodup → (∀ x ∈ l, x ∉ seen) →
      dedupFirstAux l seen = l := by
  intro l
  induction l with
  | nil => intro seen _ _; rfl
  | cons x xs ih =>
    intro seen hnd hout
    rw [dedupFirstAux, if_neg (hout x (List.mem_cons_self _ _))]
    congr 1
    apply ih
    · exact (List.nodup_cons.mp hnd).2
    · intro y hy hmem
      rcases List.mem_cons.mp hmem with h | h
      · exact (List.nodup_cons.mp hnd).1 (h ▸ hy)
      · exact hout y (List.mem_cons_of_mem _ hy) h

theorem dedupFirst_eq_self (l : List String) (h : l.Nodup) :
    dedupFirst l = l :=
  dedupFirstAux_eq_self l [] h (fun x _ hx => (List.not_mem_nil x) hx)

theorem load_of_atob_parse (tok : String) (bytes : List Nat)
    (elems : List Json) (ha : atob tok.data = some bytes)
    (hp : parseJson (bytes.map Char.ofNat) = some (.arr elems))
    (hlen : elems.length = 16) :
    loadPuzzleParam (some tok) = some elems := by
  unfold loadPuzzleParam
  show (match atob tok.data with
    | none => none
    | some bytes =>
      match parseJson (bytes.map Char.ofNat) with
      | some (Json.arr elems) => if elems.length = 16 then some elems else none
      | some _ => none
      | none => none) = some elems
  rw [ha]
  show (match parseJson (bytes.map Char.ofNat) with
    | some (Json.arr elems) => if elems.length = 16 then some elems else none
    | some _ => none
    | none => none) = some elems
  rw [hp]
  show (if elems.length = 16 then some elems else none) = some elems
  rw [if_pos hlen]

/-- C9 amended: share-link encoding round-trips for every board of 16
distinct words whose characters are Latin-1 (code points below 256, the
domain of `btoa`): encoding produces a token and loading it starts the
board with exactly the same word list; a token that is absent, fails
base64 decoding, is not valid JSON, is not an array, or is not of length
16 leaves the board unstarted.  (For a word with a code point ≥ 256,
`btoa` throws and no share link is produced —
`share_encode_throws_on_non_latin`.) -/
theorem share_link_roundtrip (wl : List String) (h16 : wl.length = 16)
    (hnd : wl.Nodup) (hlatin : ∀ s ∈ wl, ∀ c ∈ s.data, c.toNat < 256) :
    loadPuzzleParam (encodeShare wl) = some (wl.map Json.str) ∧
    encodeShare wl ≠ none ∧
    loadPuzzleParam none = none ∧
    (∀ tok : String, atob tok.data = none →
      loadPuzzleParam (some tok) = none) ∧
    (∀ (tok : String) (bytes : List Nat), atob tok.data = some bytes →
      parseJson (bytes.map Char.ofNat) = none →
      loadPuzzleParam (some tok) = none) ∧
    (∀ (tok : String) (bytes : List Nat) (elems : List Json),
      atob tok.data = some bytes →
      parseJson (bytes.map Char.ofNat) = some (.arr elems) →
      elems.length ≠ 16 → loadPuzzleParam (some tok) = none) ∧
    (∀ (tok : String) (bytes : List Nat) (v : Json),
      atob tok.data = some bytes →
      parseJson (bytes.map Char.ofNat) = some v → (∀ es, v ≠ .arr es) →
      loadPuzzleParam (some tok) = none) := by
  have hlat : ∀ c ∈ stringifyStringArr wl, c.toNat < 256 :=
    stringifyStringArr_latin wl hlatin
  have hb := atob_btoa (stringifyStringArr wl) hlat
  have hdedup : dedupFirst wl = wl := dedupFirst_eq_self wl hnd
  have henc : encodeShare wl = some (String.mk
      ((toSextets ((stringifyStringArr wl).map Char.toNat)).map encB64 ++
        padChars (stringifyStringArr wl).length)) := by
    unfold encodeShare
    rw [if_neg (by omega : ¬wl.length = 0), hdedup, hb.1]
  have hmap : ((stringifyStringArr wl).map Char.toNat).map Char.ofNat =
      stringifyStringArr wl := by
    rw [List.map_map]
    have hco : (Char.ofNat ∘ Char.toNat) = id := funext Char.ofNat_toNat
    rw [hco, List.map_id]
  refine ⟨?_, ?_, rfl, ?_, ?_, ?_, ?_⟩
  · rw [henc]
    refine load_of_atob_parse _ ((stringifyStringArr wl).map Char.toNat)
      (wl.map Json.str) hb.2 ?_ ?_
    · rw [hmap]
      exact parseJson_stringify wl
    · rw [List.length_map]
      exact h16
  · rw [henc]
    intro h
    cases h
  · intro tok ha
    unfold loadPuzzleParam
    show (match atob tok.data with
      | none => none
      | some bytes =>
        match parseJson (bytes.map Char.ofNat) with
        | some (Json.arr elems) => if elems.length = 16 then some elems else none
        | some _ => none
        | none => none) = none
    rw [ha]
  · intro tok bytes ha hp
    unfold loadPuzzleParam
    show (match atob tok.data with
      | none => none
      | some bytes =>
        match parseJson (bytes.map Char.ofNat) with
        | some (Json.arr elems) => if elems.length = 16 then some elems else none
        | some _ => none
        | none => none) = none
    rw [ha]
    show (match parseJson (bytes.map Char.ofNat) with
      | some (Json.arr elems) => if elems.length = 16 then some elems else none
      | some _ => none
      | none => none) = none
    rw [hp]
  · intro tok bytes elems ha hp hne
    unfold loadPuzzleParam
    show (match atob tok.data with
      | none => none
      | some bytes =>
        match parseJson (bytes.map Char.ofNat) with
        | some (Json.arr elems) => if elems.length = 16 then some elems else none
        | some _ => none
        | none => none) = none
    rw [ha]
    show (match parseJson (bytes.map Char.ofNat) with
      | some (Json.arr elems) => if elems.length = 16 then some elems else none
      | some _ => none
      | none => none) = none
    rw [hp]
    show (if elems.length = 16 then some elems else none) = none
    rw [if_neg hne]
  · intro tok bytes v ha hp hnv
    unfold loadPuzzleParam
    show (match atob tok.data with
      | none => none
      | some bytes =>
        match parseJson (bytes.map Char.ofNat) with
        | some (Json.arr elems) => if elems.length = 16 then some elems else none
        | some _ => none
        | none => none) = none
    rw [ha]
    show (match parseJson (bytes.map Char.ofNat) with
      | some (Json.arr elems) => if elems.length = 16 then some elems else none
      | some _ => none
      | none => none) = none
    rw [hp]
    cases v with
    | arr es => exact absurd rfl (hnv es)
    | null => rfl
    | bool b => rfl
    | num raw => rfl
    | str s => rfl
    | obj fs => rfl

/-- 16 distinct words whose first word contains U+0100, outside btoa's
Latin-1 domain. -/
def nonLatinShareWords : List String :=
  ["Ā", "B2", "B3", "B4", "B5", "B6", "B7", "B8",
   "B9", "B10", "B11", "B12", "B13", "B14", "B15", "B16"]

/-- C9 counterexample: a board of 16 distinct strings on which the claimed
round trip fails: the word "Ā" (U+0100) makes `btoa` throw, so no
query-parameter token is produced at all. -/
theorem share_encode_throws_on_non_latin :
    nonLatinShareWords.length = 16 ∧ nonLatinShareWords.Nodup ∧
      encodeShare nonLatinShareWords = none := by
  refine ⟨by decide, by decide, by decide⟩

def latinShareWords : List String :=
  ["W01", "W02", "W03", "W04", "W05", "W06", "W07", "W08",
   "W09", "W10", "W11", "W12", "W13", "W14", "W15", "W16"]

/-- Concrete check of the share-link round trip on a 16-word board. -/
theorem share_link_roundtrip_witness :
    latinShareWords.length = 16 ∧ latinShareWords.Nodup ∧
    (∀ s ∈ latinShareWords, ∀ c ∈ s.data, c.toNat < 256) ∧
    loadPuzzleParam (encodeShare latinShareWords) =
      some (latinShareWords.map Json.str) :=
  ⟨by decide, by decide, by decide,
   (share_link_roundtrip latinShareWords (by decide) (by decide)
      (by decide)).1⟩

end ConnectionsCanvas
